import Mathlib

/-!
Verification of the cross-pod calendar-home migration engine
(`txdav/common/datastore/podding/migration/home_sync.py`).

The Python source is shallowly embedded: each method of `CrossPodHomeSync`
that a claim is about becomes a Lean function over explicit state, with
transactions modelled by identifiers, Twisted `Failure` values and raised
exceptions distinguished in a `WrapOutcome` type, and Python `dict`
construction from a pair list modelled by `pydict` (first-insertion key
order, last value wins).
-/

namespace HomeSync

/-- A transaction handle, identified by the store's allocation counter. -/
abbrev Txn := Nat

/-- `CrossPodHomeSync.label`: `"Cross-pod Migration Sync for {diruid}: {detail}"`. -/
def label (diruid detail : String) : String :=
  "Cross-pod Migration Sync for " ++ diruid ++ ": " ++ detail

/-- `CrossPodHomeSync.migratingUid`: `"Migrating-{diruid}"`. -/
def migratingUid (diruid : String) : String :=
  "Migrating-" ++ diruid

/-- Outcome of a call through `inTransactionWrapper`: a normal return value,
a raised (propagating) exception, or a Twisted `Failure` returned as a
first-class value (the wrapper's `returnValue(f)` path). -/
inductive WrapOutcome (ε α : Type) where
  | ok : α → WrapOutcome ε α
  | raised : ε → WrapOutcome ε α
  | failure : ε → WrapOutcome ε α
deriving Repr, DecidableEq

/-- Transaction-management effects of one call through `inTransactionWrapper`:
whether a fresh transaction was created (and with which label), whether
`commit` was called on it, whether `abort` was called on it, and what was
logged with `log.error`. -/
structure WrapEffects where
  created : Option String
  committed : Bool
  aborted : Bool
  loggedError : Option String
deriving Repr, DecidableEq

/-- The effects of a call that neither creates, commits, aborts nor logs. -/
def WrapEffects.none : WrapEffects :=
  { created := Option.none, committed := false, aborted := false, loggedError := Option.none }

/-- `inTransactionWrapper._inTxn`. The wrapped operation `op` takes the
transaction as its first argument; Python `None` passed as the transaction is
modelled by `Option.none`, so `op : Option Txn → Except ε α`. `kwargsTxn`
models the `txn` keyword argument: `Option.none` when the key is absent from
`kwargs`, `some v` when present with value `v` (itself an `Option Txn`, since
the caller may pass `txn=None`). `freshTxn` is the id the store hands out for
`store.newTransaction(label=label)`.

The code tests `if "txn" in kwargs:` — key presence only. When present, the
operation runs with that value and its result or exception propagates
unchanged. When absent, a fresh labelled transaction is created; on success it
is committed and the result returned; on exception it is aborted, the error is
logged with the label, and the captured `Failure` is returned as a value. -/
def inTransactionWrapper (opName diruid : String) (freshTxn : Txn)
    (op : Option Txn → Except ε α) (kwargsTxn : Option (Option Txn)) :
    WrapOutcome ε α × WrapEffects :=
  match kwargsTxn with
  | some t =>
      (match op t with
       | .ok a => .ok a
       | .error e => .raised e,
       WrapEffects.none)
  | Option.none =>
      let lbl := label diruid opName
      match op (some freshTxn) with
      | .ok a =>
          (.ok a,
           { created := some lbl, committed := true, aborted := false,
             loggedError := Option.none })
      | .error e =>
          (.failure e,
           { created := some lbl, committed := false, aborted := true,
             loggedError := some lbl })

/-- `CrossPodHomeSync.loadRecord`'s possible errors. -/
inductive LoadRecordError where
  | directoryRecordNotFoundError : String → LoadRecordError
  | valueError : String → LoadRecordError
deriving Repr, DecidableEq

/-- The slice of a directory record that `loadRecord` inspects. -/
structure DirectoryRecord where
  uid : String
  thisServer : Bool
deriving Repr, DecidableEq

/-- `CrossPodHomeSync.loadRecord`: look the migrating uid up in the directory;
raise `DirectoryRecordNotFoundError` when the lookup returns `None`, raise
`ValueError` when the record reports `thisServer()`; otherwise the record is
stored on `self` and the method returns. `lookup` is the value returned by
`store.directoryService().recordWithUID(diruid)`. -/
def loadRecord (diruid : String) (lookup : Option DirectoryRecord) :
    Except LoadRecordError DirectoryRecord :=
  match lookup with
  | Option.none =>
      .error (.directoryRecordNotFoundError
        ("Cross-pod Migration Sync missing directory record for " ++ diruid))
  | some r =>
      if r.thisServer then
        .error (.valueError
          ("Cross-pod Migration Sync cannot sync with user already on this server: " ++ diruid))
      else
        .ok r

/-- The sub-steps of `CrossPodHomeSync.sync`, in program order, run only after
`loadRecord` succeeds: `loadRecord` is the first `yield` of `sync`, so when it
raises, none of the later steps run. -/
def syncSubSteps : List String :=
  ["prepareCalendarHome", "syncCalendarList", "syncCalendarHomeMetaData", "syncAttachments"]

/-- `CrossPodHomeSync.sync` as a step trace: the list of sub-steps performed,
or the error from `loadRecord` with no step performed. -/
def syncStepTrace (diruid : String) (lookup : Option DirectoryRecord) :
    Except LoadRecordError (List String) :=
  match loadRecord diruid lookup with
  | .error e => .error e
  | .ok _ => .ok syncSubSteps

/-- `CrossPodHomeSync.finalSync` as a step trace: `linkAttachments` first, then
(after the TODO placeholders, which do nothing) `delegateReconcile`. -/
def finalSyncTrace : List String :=
  ["linkAttachments", "delegateReconcile"]

/-- `CrossPodHomeSync.migrateHere` as a phase trace. The body is a straight
`inlineCallbacks` chain of `yield`s, so each phase starts only after the
previous one completes; the trace lists the phases in execution order, with
`sync` expanded to its sub-steps and `finalSync` to its. -/
def migrateHereTrace : List String :=
  (["loadRecord"] ++ syncSubSteps) ++
  (["loadRecord"] ++ syncSubSteps) ++
  ["disableRemoteHome"] ++
  (["loadRecord"] ++ syncSubSteps) ++
  finalSyncTrace ++
  ["enableLocalHome"] ++
  ["removeRemoteHome"]

/-- `CrossPodHomeSync.BATCH_SIZE`. -/
def BATCH_SIZE : Nat := 50

/-- The batching loop shared by `purgeDeletedObjectsInBatches` and
`updateChangedObjectsInBatches`: `while remaining: use remaining[:BATCH_SIZE];
del remaining[:BATCH_SIZE]`. Produces the list of windows in order. -/
def batchWindows : List α → List (List α)
  | [] => []
  | x :: xs =>
      (x :: xs).take BATCH_SIZE :: batchWindows ((x :: xs).drop BATCH_SIZE)
termination_by l => l.length
decreasing_by
  simp only [List.length_drop, List.length_cons, BATCH_SIZE]
  omega

/-- `CrossPodHomeSync.purgeDeletedObjectsInBatches`, seen through the
transaction wrapper: each window is handed to `purgeBatch`, which is decorated
with `inTransactionWrapper` and called without a `txn` keyword, so the store
allocates a fresh transaction per window. Returns each window paired with the
id of the transaction it ran in, threading the store's transaction counter. -/
def windowsWithFreshTxns (firstTxn : Txn) (remaining : List α) :
    List (Txn × List α) :=
  (batchWindows remaining).enum.map (fun p => (firstTxn + p.1, p.2))

/-- One step of Python `dict` construction: insert key `k` with value `v`,
overwriting in place when `k` is already a key (keeping its position),
appending otherwise. -/
def dictInsert [DecidableEq κ] (d : List (κ × β)) (k : κ) (v : β) : List (κ × β) :=
  if d.any (fun p => p.1 = k) then
    d.map (fun p => if p.1 = k then (k, v) else p)
  else
    d ++ [(k, v)]

/-- Python `dict([(k, v), ...])`: keys in first-insertion order, last value
for a repeated key wins. -/
def pydict [DecidableEq κ] (ps : List (κ × β)) : List (κ × β) :=
  ps.foldl (fun d p => dictInsert d p.1 p.2) []

/-- A calendar object resource, as far as the sync algorithms inspect it:
its resource id, its name (unique within its calendar) and its content md5. -/
structure CalObject where
  oid : Nat
  name : String
  md5 : String
deriving Repr, DecidableEq

/-- `Calendar.objectResourcesWithNames(names)`: the calendar's object
resources whose name is in `names`, in store order. -/
def objectResourcesWithNames (objs : List CalObject) (names : List String) :
    List CalObject :=
  objs.filter (fun o => decide (o.name ∈ names))

/-- `CrossPodHomeSync.findObjectsToSync`, after the remote calendar has been
found (`childWithID` not `None`): given the remote calendar's objects, the
local calendar's objects and the `(changed, deleted)` pair from
`resourceNamesSinceToken`, build name-keyed dicts of the remote and local
fetches of `changed`, keep the names whose entry is absent from the local
dict or whose remote md5 differs from the local md5, and return them together
with `deleted` unchanged. -/
def findObjectsToSync (remoteObjs localObjs : List CalObject)
    (changed deleted : List String) : List String × List String :=
  let remote_changes :=
    pydict ((objectResourcesWithNames remoteObjs changed).map (fun o => (o.name, o)))
  let local_changes :=
    pydict ((objectResourcesWithNames localObjs changed).map (fun o => (o.name, o)))
  let actual_changes :=
    remote_changes.foldl (fun acc p =>
      match List.lookup p.1 local_changes with
      | Option.none => acc ++ [p.1]
      | some lo => if p.2.md5 ≠ lo.md5 then acc ++ [p.1] else acc) []
  (actual_changes, deleted)

/-- `CrossPodHomeSync.purgeBatch`, effect on the local calendar's objects:
the objects whose name is in `purge_names` are loaded and purged; names with
no local object are silently skipped. -/
def purgeBatch (localObjs : List CalObject) (purge_names : List String) :
    List CalObject :=
  localObjs.filter (fun o => !decide (o.name ∈ purge_names))

/-- The change set as C3's sentence states it, written from the spec's words
for the refinement comparison: the subset of names in `changed` that are
absent from the local calendar or whose remote md5 differs from the local
object's md5. -/
def specClaimedChangeSet (remoteObjs localObjs : List CalObject)
    (changed : List String) : List String :=
  changed.filter (fun n =>
    decide ((∀ lo ∈ localObjs, lo.name ≠ n) ∨
      (∃ ro ∈ remoteObjs, ro.name = n ∧
        ∃ lo ∈ localObjs, lo.name = n ∧ ro.md5 ≠ lo.md5)))

/-- A managed attachment, as far as `syncAttachmentTable` inspects it: its
resource id and its md5. -/
structure Attachment where
  aid : Nat
  md5 : String
deriving Repr, DecidableEq

/-- An `AttachmentMigrationRecord` row: remote attachment id mapped to the
locally allocated attachment id, keyed by the migrating home. -/
structure AttachmentMigrationRecord where
  calendarHomeResourceID : Nat
  remoteResourceID : Nat
  localResourceID : Nat
deriving Repr, DecidableEq

/-- The store-side effects `syncAttachmentTable` performs, in program order. -/
inductive AttachmentAction where
  | removeNoQuota (localId : Nat)
  | deleteMappingRow (remoteId : Nat)
  | createAttachment (localId : Nat)
  | createMappingRow (remoteId localId : Nat)
  | copyRemote (localId remoteId : Nat)
deriving Repr, DecidableEq

/-- The `ManagedAttachment._create` loop's id allocation: each added remote
id is paired with the next locally allocated attachment id, in order. -/
def allocatePairs (nextId : Nat) : List (Nat × Attachment) → List (Nat × Nat)
  | [] => []
  | p :: ps => (p.1, nextId) :: allocatePairs (nextId + 1) ps

/-- The store actions of the `added` loop: a placeholder attachment and a
mapping row per (remote id, fresh local id) pair, in order. -/
def addedActionsOf (pairs : List (Nat × Nat)) : List AttachmentAction :=
  pairs.foldr (fun p acc =>
    AttachmentAction.createAttachment p.2 ::
      AttachmentAction.createMappingRow p.1 p.2 :: acc) []

/-- One iteration of the `updates` loop: `local_id = mapping[updated_id]
.localResourceID; if rmap[updated_id].md5() != lmap[local_id].md5(): copy and
mark`. The `lmap[local_id]` lookup is unguarded (`KeyError` when the local
attachment row is gone). -/
def attachmentUpdateStep (rmap lmap : List (Nat × Attachment))
    (p : Nat × AttachmentMigrationRecord) :
    Except String (List Nat × List AttachmentAction) :=
  match List.lookup p.1 rmap with
  | Option.none => .error "KeyError: rmap"
  | some ra =>
      match List.lookup p.2.localResourceID lmap with
      | Option.none => .error ("KeyError: " ++ toString p.2.localResourceID)
      | some la =>
          if ra.md5 ≠ la.md5 then
            .ok ([p.2.localResourceID],
                 [AttachmentAction.copyRemote p.2.localResourceID p.1])
          else
            .ok ([], [])

/-- `removed = set(mapping.keys()) - set(rmap.keys())`, as the mapping
entries whose key has no remote attachment. -/
def removedEntriesOf (rmap : List (Nat × Attachment))
    (mapping : List (Nat × AttachmentMigrationRecord)) :
    List (Nat × AttachmentMigrationRecord) :=
  mapping.filter (fun p => !(rmap.any (fun q => q.1 = p.1)))

/-- The `removed` loop: `ManagedAttachment.load` by the record's local id;
remove without quota adjustment when found, else delete just the mapping
row. -/
def removedActionsOf (lmap : List (Nat × Attachment))
    (removedEntries : List (Nat × AttachmentMigrationRecord)) :
    List AttachmentAction :=
  removedEntries.map (fun p =>
    match List.lookup p.2.localResourceID lmap with
    | some _ => AttachmentAction.removeNoQuota p.2.localResourceID
    | Option.none => AttachmentAction.deleteMappingRow p.1)

/-- `added = set(rmap.keys()) - set(mapping.keys())`, as the remote entries
whose key has no mapping row. -/
def addedEntriesOf (rmap : List (Nat × Attachment))
    (mapping : List (Nat × AttachmentMigrationRecord)) :
    List (Nat × Attachment) :=
  rmap.filter (fun p => !(mapping.any (fun q => q.1 = p.1)))

/-- `updates = set(mapping.keys()) & set(rmap.keys())`, as the mapping
entries whose key also has a remote attachment. -/
def updateEntriesOf (rmap : List (Nat × Attachment))
    (mapping : List (Nat × AttachmentMigrationRecord)) :
    List (Nat × AttachmentMigrationRecord) :=
  mapping.filter (fun p => rmap.any (fun q => q.1 = p.1))

/-- `CrossPodHomeSync.syncAttachmentTable`. `remoteHome` is the result of
`_remoteHome(txn)`: `None` when the conduit returned no resource id, in which
case `remote_home.getAllAttachments()` raises on `None` (the code does not
check); otherwise the remote home's attachments. `lattachments` is the local
home's attachments, `records` the `AttachmentMigrationRecord` rows queried
for the home, and `nextAttachmentId` the store's id allocator for
`ManagedAttachment._create`. Returns
`(data_ids, removed, actions)`: the local ids needing data sync, the removed
remote ids, and the store actions performed. A missing `lmap` entry during
the update pass is the unguarded `lmap[local_id]` `KeyError`. -/
def syncAttachmentTable (remoteHome : Option (List Attachment))
    (lattachments : List Attachment) (records : List AttachmentMigrationRecord)
    (nextAttachmentId : Nat) :
    Except String (List Nat × List Nat × List AttachmentAction) :=
  match remoteHome with
  | Option.none =>
      .error "AttributeError: NoneType object has no attribute getAllAttachments"
  | some rattachments =>
      let rmap := pydict (rattachments.map (fun a => (a.aid, a)))
      let lmap := pydict (lattachments.map (fun a => (a.aid, a)))
      let mapping := pydict (records.map (fun r => (r.remoteResourceID, r)))
      let addedPairs := allocatePairs nextAttachmentId (addedEntriesOf rmap mapping)
      match (updateEntriesOf rmap mapping).mapM (attachmentUpdateStep rmap lmap) with
      | .error e => .error e
      | .ok parts =>
          .ok (addedPairs.map Prod.snd ++ (parts.map Prod.fst).flatten,
               (removedEntriesOf rmap mapping).map Prod.fst,
               removedActionsOf lmap (removedEntriesOf rmap mapping) ++
                 addedActionsOf addedPairs ++ (parts.map Prod.snd).flatten)

/-- An `ATTACHMENT_CALENDAR_OBJECT` link row, as far as `makeAttachmentLinks`
rewrites it. -/
structure AttachmentLink where
  attachmentID : Nat
  calendarObjectID : Nat
deriving Repr, DecidableEq

/-- The loop body of `CrossPodHomeSync.makeAttachmentLinks`: for each remote
link, rewrite `link._attachmentID` through `attachmentIDMap` and
`link._calendarObjectID` through `objectIDMap` (both unguarded dictionary
lookups, whose miss is a `KeyError`), then insert the rewritten link. The
maps carry `remote id ↦ record.localResourceID`. Returns the list of links
inserted in the transaction, or the first lookup failure. -/
def linkRewriteStep (attachmentIDMap objectIDMap : List (Nat × Nat))
    (acc : List AttachmentLink) (link : AttachmentLink) :
    Except String (List AttachmentLink) :=
  match List.lookup link.attachmentID attachmentIDMap with
  | Option.none => .error "KeyError: attachmentIDMap"
  | some aLocal =>
      match List.lookup link.calendarObjectID objectIDMap with
      | Option.none => .error "KeyError: objectIDMap"
      | some oLocal => .ok (acc ++ [⟨aLocal, oLocal⟩])

def makeAttachmentLinksOp (links : List AttachmentLink)
    (attachmentIDMap objectIDMap : List (Nat × Nat)) :
    Except String (List AttachmentLink) :=
  links.foldlM (linkRewriteStep attachmentIDMap objectIDMap) []

/-- `makeAttachmentLinks` as called from `linkAttachments`: decorated with
`inTransactionWrapper` and invoked without a `txn` keyword, so the batch runs
in a self-created transaction. -/
def makeAttachmentLinks (diruid : String) (freshTxn : Txn)
    (links : List AttachmentLink) (attachmentIDMap objectIDMap : List (Nat × Nat)) :
    WrapOutcome String (List AttachmentLink) × WrapEffects :=
  inTransactionWrapper "makeAttachmentLinks" diruid freshTxn
    (fun _ => makeAttachmentLinksOp links attachmentIDMap objectIDMap) Option.none

/-- The links a batch leaves committed: inserts live only in the batch's
transaction, so they persist exactly when the wrapper committed it. -/
def committedLinks (r : WrapOutcome String (List AttachmentLink) × WrapEffects) :
    List AttachmentLink :=
  match r.1 with
  | .ok ls => ls
  | _ => []

/-- `CrossPodHomeSync.getAttachmentLinks`: fetch the remote link rows through
the proxy; dispatching on a `None` proxy raises. -/
def getAttachmentLinksStep (remoteHome : Option (List AttachmentLink)) :
    Except String (List AttachmentLink) :=
  match remoteHome with
  | Option.none =>
      .error "AttributeError: NoneType object has no attribute getAttachmentLinks"
  | some links => .ok links

/-- A `CalendarMigrationRecord` row. -/
structure CalendarMigrationRecord where
  calendarHomeResourceID : Nat
  remoteResourceID : Nat
  localResourceID : Nat
  lastSyncToken : Option String
deriving Repr, DecidableEq

/-- A remote calendar as seen through the proxy: its id, ownership, current
sync token, its object resources, and `resourceNamesSinceToken` as a function
from a prior token to `(changed, deleted)` (the `invalid` component is bound
to `_ignore_invalid` by the code). -/
structure RemoteCalendar where
  rid : Nat
  owned : Bool
  syncToken : String
  objs : List CalObject
  changesSince : Option String → List String × List String

/-- A local calendar: its id and its object resources. -/
structure LocalCalendar where
  lid : Nat
  objs : List CalObject
deriving Repr, DecidableEq

/-- The local store state that the calendar-list sync reads and writes: the
migrating home's id, the `CalendarMigrationRecord` rows, the local calendars
with their objects, the `CalendarObjectMigrationRecord` rows
(remote object id ↦ local object id) and the store's id allocators. -/
structure SyncState where
  homeId : Nat
  records : List CalendarMigrationRecord
  calendars : List LocalCalendar
  objMigRecords : List (Nat × Nat)
  nextCalendarId : Nat
  nextObjectId : Nat
deriving Repr, DecidableEq

/-- Observable cost of a sync pass: calendar-object writes (raw creates,
raw overwrites and purges) and `resourceNamesSinceToken` calls. -/
structure SyncTrace where
  objectWrites : Nat
  sinceTokenCalls : Nat
deriving Repr, DecidableEq

/-- `CrossPodHomeSync.getCalendarSyncList` for a present remote home: a dict
mapping each owned remote calendar's id to a fresh `CalendarMigrationRecord`
carrying the calendar's current sync token (non-owned calendars are
excluded). -/
def getCalendarSyncListSome (remoteHomeId : Nat) (rcals : List RemoteCalendar) :
    List (Nat × CalendarMigrationRecord) :=
  pydict ((rcals.filter (fun c => c.owned)).map
    (fun c => (c.rid, { calendarHomeResourceID := remoteHomeId,
                        remoteResourceID := c.rid, localResourceID := 0,
                        lastSyncToken := some c.syncToken })))

/-- `CrossPodHomeSync.getCalendarSyncList`: when `_remoteHome` returns `None`
(conduit reported no resource id) the method returns `None` — the explicit
guard at its top; otherwise the owned-calendar dict. -/
def getCalendarSyncList (remoteHome : Option (Nat × List RemoteCalendar)) :
    Option (List (Nat × CalendarMigrationRecord)) :=
  match remoteHome with
  | Option.none => Option.none
  | some (hid, rcals) => some (getCalendarSyncListSome hid rcals)

/-- `CrossPodHomeSync.getSyncState`: the home's `CalendarMigrationRecord`
rows, keyed by `remoteResourceID`. -/
def getSyncState (st : SyncState) : List (Nat × CalendarMigrationRecord) :=
  pydict (st.records.map (fun r => (r.remoteResourceID, r)))

/-- One iteration of `purgeLocal`'s loop: `home.childWithID(localID)`; when
found the calendar is purged (removing its objects, and by cascade its
`CalendarMigrationRecord` and the object migration rows of its objects);
when absent nothing is touched. Returns the purged-object count. -/
def purgeCalendarLocally (st : SyncState) (localId : Nat) : SyncState × Nat :=
  match st.calendars.find? (fun c => c.lid == localId) with
  | some c =>
      ({ st with
          calendars := st.calendars.filter (fun d => !(d.lid == localId)),
          records := st.records.filter (fun r => !(r.localResourceID == localId)),
          objMigRecords := st.objMigRecords.filter
            (fun p => !(c.objs.any (fun o => o.oid == p.2))) },
       c.objs.length)
  | Option.none => (st, 0)

/-- `CrossPodHomeSync.purgeLocal`: for each key in the local state but not the
remote state, purge the local calendar (silently skipping a missing one) and
delete the in-memory dict entry. Returns the state, the trimmed dict, and the
number of objects removed. -/
def purgeLocal (st : SyncState) (lss rss : List (Nat × CalendarMigrationRecord)) :
    SyncState × List (Nat × CalendarMigrationRecord) × Nat :=
  (lss.filter (fun p => !(rss.any (fun q => q.1 == p.1)))).foldl
    (fun acc p =>
      let (st1, lss1, w) := acc
      let (st2, w2) := purgeCalendarLocally st1 p.2.localResourceID
      (st2, lss1.filter (fun q => !(q.1 == p.1)), w + w2))
    (st, lss, 0)

/-- `CrossPodHomeSync.purgeBatch`, applied to the store state: load the local
calendar's objects with the batch's names and purge each; a missing calendar
makes the wrapped batch fail, which its caller ignores (the wrapper returns
the `Failure` as a value and `purgeDeletedObjectsInBatches` drops it), so the
state is unchanged. Returns the purge count. -/
def applyPurgeBatch (st : SyncState) (localID : Nat) (names : List String) :
    SyncState × Nat :=
  match st.calendars.find? (fun c => c.lid == localID) with
  | Option.none => (st, 0)
  | some c =>
      let purged := c.objs.filter (fun o => decide (o.name ∈ names))
      ({ st with
          calendars := st.calendars.map (fun d =>
            if d.lid == localID then { d with objs := purgeBatch d.objs names } else d),
          objMigRecords := st.objMigRecords.filter
            (fun p => !(purged.any (fun o => o.oid == p.2))) },
       purged.length)

/-- `CrossPodHomeSync.purgeDeletedObjectsInBatches` applied to the state:
`purgeBatch` per window of `BATCH_SIZE` names. -/
def purgeDeletedInBatches (st : SyncState) (localID : Nat) (deleted : List String) :
    SyncState × Nat :=
  (batchWindows deleted).foldl (fun acc w =>
      let (st1, n) := acc
      let (st2, n2) := applyPurgeBatch st1 localID w
      (st2, n + n2)) (st, 0)

/-- `CrossPodHomeSync.updateBatch` applied to the state. A `None` remote home
raises (`remote_home.childWithID` on `None`); a missing remote calendar is
the guarded `returnValue(None)` no-op; a missing local calendar raises. For
each remote object of the batch: an existing local object of the same name is
overwritten through the raw internal path with the remote md5 stamped on, and
removed from the local dict; otherwise a new local object is created with a
fresh id and a `CalendarObjectMigrationRecord` is inserted. Local objects
still in the dict afterwards are purged. Returns the write count (raw sets,
creates and purges). -/
def applyUpdateBatch (remoteHome : Option (List RemoteCalendar)) (st : SyncState)
    (localID remoteID : Nat) (remaining : List String) :
    Except String (SyncState × Nat) :=
  match remoteHome with
  | Option.none => .error "AttributeError: NoneType object has no attribute childWithID"
  | some rcals =>
      match rcals.find? (fun c => c.rid == remoteID) with
      | Option.none => .ok (st, 0)
      | some rc =>
          match st.calendars.find? (fun c => c.lid == localID) with
          | Option.none => .error "AttributeError: NoneType object (local calendar)"
          | some lc =>
              let remote_objects :=
                pydict ((objectResourcesWithNames rc.objs remaining).map (fun o => (o.name, o)))
              let local_objects :=
                pydict ((objectResourcesWithNames lc.objs remaining).map (fun o => (o.name, o)))
              let step := fun (acc : List CalObject × List (String × CalObject) ×
                  Nat × List (Nat × Nat) × Nat) (p : String × CalObject) =>
                let (objs, locals, nid, migs, w) := acc
                match List.lookup p.1 locals with
                | some _ =>
                    (objs.map (fun o => if o.name == p.1 then { o with md5 := p.2.md5 } else o),
                     locals.filter (fun q => !(q.1 == p.1)), nid, migs, w + 1)
                | Option.none =>
                    (objs ++ [{ oid := nid, name := p.1, md5 := p.2.md5 }],
                     locals, nid + 1, migs ++ [(p.2.oid, nid)], w + 1)
              let folded := remote_objects.foldl step
                (lc.objs, local_objects, st.nextObjectId, [], 0)
              let objs1 := folded.1
              let locals1 := folded.2.1
              let nid1 := folded.2.2.1
              let migs1 := folded.2.2.2.1
              let w1 := folded.2.2.2.2
              let purgedObjs := objs1.filter (fun o => locals1.any (fun q => q.1 == o.name))
              let objs2 := objs1.filter (fun o => !(locals1.any (fun q => q.1 == o.name)))
              .ok ({ st with
                      calendars := st.calendars.map (fun d =>
                        if d.lid == localID then { d with objs := objs2 } else d),
                      nextObjectId := nid1,
                      objMigRecords := (st.objMigRecords ++ migs1).filter
                        (fun p => !(purgedObjs.any (fun o => o.oid == p.2))) },
                   w1 + purgedObjs.length)

/-- `CrossPodHomeSync.updateChangedObjectsInBatches` applied to the state:
`updateBatch` per window; a failing batch's wrapped `Failure` value is
ignored by the loop (its transaction aborted, state unchanged). -/
def updateChangedInBatches (remoteHome : Option (List RemoteCalendar)) (st : SyncState)
    (localID remoteID : Nat) (changed : List String) : SyncState × Nat :=
  (batchWindows changed).foldl (fun acc w =>
      let (st1, n) := acc
      match applyUpdateBatch remoteHome st1 localID remoteID w with
      | .ok (st2, n2) => (st2, n + n2)
      | .error _ => (st1, n)) (st, 0)

/-- `CrossPodHomeSync.updateSyncState`: insert the (new) record with the new
token, or update the stored row's `lastSyncToken` through a duplicate bound
to the fresh transaction. -/
def updateSyncState (st : SyncState) (rec : CalendarMigrationRecord)
    (newToken : Option String) (isnew : Bool) : SyncState :=
  if isnew then
    { st with records := st.records ++ [{ rec with lastSyncToken := newToken }] }
  else
    { st with records := st.records.map (fun r =>
        if r.remoteResourceID == rec.remoteResourceID then
          { r with lastSyncToken := newToken }
        else r) }

/-- `CrossPodHomeSync.syncCalendar` for one remote calendar id. Creates the
local calendar and an in-memory record when the id is not yet mapped
(`newCalendar`); when the stored token differs from the remote token it runs
metadata sync (no object writes), `findObjectsToSync` (one
`resourceNamesSinceToken` call; raising `TypeError` on unpacking if the
remote calendar disappeared, since `findObjectsToSync` then returned `None`),
then batched purges and batched updates; in both cases it finishes with
`updateSyncState` recording the remote token. -/
def syncCalendarModel (rcals : List RemoteCalendar) (remoteID : Nat)
    (st : SyncState) (lss rss : List (Nat × CalendarMigrationRecord)) :
    Except String (SyncState × List (Nat × CalendarMigrationRecord) × SyncTrace) :=
  let create :=
    if lss.any (fun p => p.1 == remoteID) then (st, lss, false)
    else
      ({ st with calendars := st.calendars ++ [⟨st.nextCalendarId, []⟩],
                 nextCalendarId := st.nextCalendarId + 1 },
       dictInsert lss remoteID
         { calendarHomeResourceID := st.homeId, remoteResourceID := remoteID,
           localResourceID := st.nextCalendarId, lastSyncToken := Option.none },
       true)
  let st1 := create.1
  let lss1 := create.2.1
  let isnew := create.2.2
  match List.lookup remoteID lss1, List.lookup remoteID rss with
  | some local_record, some rrec =>
      let remote_token := rrec.lastSyncToken
      if local_record.lastSyncToken ≠ remote_token then
        match rcals.find? (fun c => c.rid == local_record.remoteResourceID) with
        | Option.none => .error "TypeError: cannot unpack None (findObjectsToSync)"
        | some rc =>
            match st1.calendars.find? (fun c => c.lid == local_record.localResourceID) with
            | Option.none => .error "AttributeError: NoneType object (local calendar)"
            | some lc =>
                let cd := rc.changesSince local_record.lastSyncToken
                let found := findObjectsToSync rc.objs lc.objs cd.1 cd.2
                let purgeRes := purgeDeletedInBatches st1 local_record.localResourceID found.2
                let updRes := updateChangedInBatches (some rcals) purgeRes.1
                  local_record.localResourceID local_record.remoteResourceID found.1
                .ok (updateSyncState updRes.1 local_record remote_token isnew,
                     lss1, ⟨purgeRes.2 + updRes.2, 1⟩)
      else
        .ok (updateSyncState st1 local_record remote_token isnew, lss1, ⟨0, 0⟩)
  | _, _ => .error "KeyError: remote_sync_state"

/-- One iteration of `syncCalendarList`'s loop over the remote ids:
`syncCalendar`, threading the state and the in-memory dict and accumulating
the trace. -/
def syncListStep (rcals : List RemoteCalendar) (rss : List (Nat × CalendarMigrationRecord))
    (acc : SyncState × List (Nat × CalendarMigrationRecord) × SyncTrace)
    (remoteID : Nat) :
    Except String (SyncState × List (Nat × CalendarMigrationRecord) × SyncTrace) :=
  (syncCalendarModel rcals remoteID acc.1 acc.2.1 rss).map
    (fun res => (res.1, res.2.1,
      SyncTrace.mk (acc.2.2.objectWrites + res.2.2.objectWrites)
        (acc.2.2.sinceTokenCalls + res.2.2.sinceTokenCalls)))

/-- `CrossPodHomeSync.syncCalendarList`: remote owned-calendar dict (raising
downstream when the proxy is `None`: `purgeLocal`'s wrapped body fails and is
returned as an ignored `Failure`, and `remote_sync_state.keys()` in
`syncCalendarList` itself then raises `AttributeError` on `None`), local
state dict, purge of calendars gone remotely, then `syncCalendar` per remote
id, accumulating object writes and `resourceNamesSinceToken` calls. -/
def syncCalendarListModel (remoteHome : Option (Nat × List RemoteCalendar))
    (st : SyncState) : Except String (SyncState × SyncTrace) :=
  match remoteHome with
  | Option.none => .error "AttributeError: NoneType object has no attribute keys"
  | some (hid, rcals) =>
      let rss := getCalendarSyncListSome hid rcals
      let lss := getSyncState st
      let purged := purgeLocal st lss rss
      match (rss.map Prod.fst).foldlM (syncListStep rcals rss)
          (purged.1, purged.2.1, ⟨purged.2.2, 0⟩) with
      | .error e => .error e
      | .ok res => .ok (res.1, res.2.2)

end HomeSync

namespace HomeSync

theorem batchWindows_nil : batchWindows ([] : List α) = [] := by
  rw [batchWindows]

theorem batchWindows_cons (x : α) (xs : List α) :
    batchWindows (x :: xs) =
      (x :: xs).take BATCH_SIZE :: batchWindows ((x :: xs).drop BATCH_SIZE) := by
  rw [batchWindows]

theorem dictInsert_of_not_mem [DecidableEq κ] (d : List (κ × β)) (k : κ) (v : β)
    (h : ∀ p ∈ d, p.1 ≠ k) : dictInsert d k v = d ++ [(k, v)] := by
  unfold dictInsert
  rw [if_neg]
  simp only [List.any_eq_true, decide_eq_true_eq, not_exists, not_and]
  intro p hp
  exact h p hp

theorem pydict_of_nodup_keys [DecidableEq κ] (ps : List (κ × β))
    (h : (ps.map Prod.fst).Nodup) : pydict ps = ps := by
  suffices H : ∀ (ps acc : List (κ × β)), ((acc ++ ps).map Prod.fst).Nodup →
      ps.foldl (fun d p => dictInsert d p.1 p.2) acc = acc ++ ps by
    simpa using H ps [] (by simpa using h)
  intro ps
  induction ps with
  | nil => intro acc _; simp
  | cons p ps ih =>
      intro acc hacc
      have hnotin : ¬ (acc.any (fun q => decide (q.1 = p.1)) = true) := by
        simp only [List.any_eq_true, decide_eq_true_eq, not_exists, not_and]
        intro q hq hqp
        have hnd := hacc
        rw [List.map_append, List.nodup_append] at hnd
        exact hnd.2.2 (List.mem_map_of_mem Prod.fst hq) (by simp [hqp])
      have hins : dictInsert acc p.1 p.2 = acc ++ [p] := by
        unfold dictInsert
        rw [if_neg hnotin]
      rw [List.foldl_cons, hins, ih (acc ++ [p]) (by simpa using hacc)]
      simp

/-- C1: with a caller-supplied `txn` keyword, the wrapped operation runs in it
and its result or exception propagates unchanged, with no transaction created,
committed, aborted or logged. Without one, a fresh transaction labelled with
the operation's name is created; on success it is committed and the result
returned; on any exception it is aborted, the failure logged with the label,
and the failure returned as a first-class `Failure` value. When the wrapper
creates the transaction, exactly one of commit and abort happens. -/
theorem C1_inTransactionWrapper (ε α : Type) (opName diruid : String) (freshTxn : Txn)
    (op : Option Txn → Except ε α) :
    (∀ t : Option Txn,
      inTransactionWrapper opName diruid freshTxn op (some t) =
        ((match op t with | .ok a => .ok a | .error e => .raised e), WrapEffects.none)) ∧
    (∀ a : α, op (some freshTxn) = .ok a →
      inTransactionWrapper opName diruid freshTxn op Option.none =
        (.ok a, { created := some (label diruid opName), committed := true,
                  aborted := false, loggedError := Option.none })) ∧
    (∀ e : ε, op (some freshTxn) = .error e →
      inTransactionWrapper opName diruid freshTxn op Option.none =
        (.failure e, { created := some (label diruid opName), committed := false,
                       aborted := true, loggedError := some (label diruid opName) })) ∧
    (Xor'
      (inTransactionWrapper opName diruid freshTxn op Option.none).2.committed
      (inTransactionWrapper opName diruid freshTxn op Option.none).2.aborted) := by
  refine ⟨fun t => rfl, fun a ha => ?_, fun e he => ?_, ?_⟩
  · simp [inTransactionWrapper, ha]
  · simp [inTransactionWrapper, he]
  · unfold inTransactionWrapper
    cases op (some freshTxn) <;> simp [Xor']

/-- Witness for C1 at a concrete operation: succeeding operation commits,
failing operation aborts and returns a failure value. -/
theorem C1_inTransactionWrapper_witness :
    (fun (_ : Option Txn) => (Except.ok 7 : Except String Nat)) (some 3) = .ok 7 ∧
    inTransactionWrapper "step" "user01" 3
        (fun _ => (Except.ok 7 : Except String Nat)) Option.none =
      (.ok 7, { created := some (label "user01" "step"), committed := true,
                aborted := false, loggedError := Option.none }) := by
  exact ⟨rfl,
    (C1_inTransactionWrapper String Nat "step" "user01" 3
      (fun _ => Except.ok 7)).2.1 7 rfl⟩

/-- C9: passing the `txn` keyword explicitly as `None` counts as
caller-supplied, since `_inTxn` tests only `"txn" in kwargs`: no transaction
is created, committed or aborted, nothing is logged, the operation is invoked
with `None` as its transaction argument, and an exception propagates as a
raised exception rather than becoming a logged failure value. -/
theorem C9_wrapper_txn_none (ε α : Type) (opName diruid : String) (freshTxn : Txn)
    (op : Option Txn → Except ε α) :
    inTransactionWrapper opName diruid freshTxn op (some Option.none) =
      ((match op Option.none with | .ok a => .ok a | .error e => .raised e),
       WrapEffects.none) := by
  rfl

/-- C8: `loadRecord` raises `DirectoryRecordNotFoundError` when the directory
lookup returns `None` and `ValueError` when the record reports
`thisServer() = True`; in both cases `sync` performs none of its later steps;
otherwise the record is stored and returned normally. -/
theorem C8_loadRecord (diruid : String) :
    (loadRecord diruid Option.none =
      .error (.directoryRecordNotFoundError
        ("Cross-pod Migration Sync missing directory record for " ++ diruid))) ∧
    (∀ r : DirectoryRecord,
      loadRecord diruid (some r) =
        if r.thisServer then
          .error (.valueError
            ("Cross-pod Migration Sync cannot sync with user already on this server: "
              ++ diruid))
        else .ok r) ∧
    (∀ lookup : Option DirectoryRecord, ∀ e : LoadRecordError,
      loadRecord diruid lookup = .error e → syncStepTrace diruid lookup = .error e) := by
  refine ⟨rfl, fun r => rfl, fun lookup e he => ?_⟩
  simp [syncStepTrace, he]

/-- C6: `migrateHere` runs its phases strictly in order — initial bulk sync,
warm re-sync, disable of the remote source home, final delta sync, final
reconcile with `linkAttachments` before `delegateReconcile` (hence after every
object and attachment sync step), enable of the local destination home, purge
of the remote home. The body is a sequential `yield` chain, so the trace is
exactly this list and no phase starts before the previous completes. -/
theorem C6_migrateHere_phase_order :
    migrateHereTrace =
      ["loadRecord", "prepareCalendarHome", "syncCalendarList",
       "syncCalendarHomeMetaData", "syncAttachments",
       "loadRecord", "prepareCalendarHome", "syncCalendarList",
       "syncCalendarHomeMetaData", "syncAttachments",
       "disableRemoteHome",
       "loadRecord", "prepareCalendarHome", "syncCalendarList",
       "syncCalendarHomeMetaData", "syncAttachments",
       "linkAttachments", "delegateReconcile",
       "enableLocalHome", "removeRemoteHome"] ∧
    migrateHereTrace.indexOf "linkAttachments" = 16 ∧
    migrateHereTrace.indexOf "delegateReconcile" = 17 ∧
    migrateHereTrace.indexOf "syncAttachments" = 4 := by
  refine ⟨rfl, ?_, ?_, ?_⟩ <;> decide

/-- Each batch window produced by the `remaining[:BATCH_SIZE]` loop has at
most `BATCH_SIZE` elements. -/
theorem batchWindows_length_le (l : List α) :
    ∀ w ∈ batchWindows l, w.length ≤ BATCH_SIZE := by
  have H : ∀ n, ∀ l : List α, l.length ≤ n →
      ∀ w ∈ batchWindows l, w.length ≤ BATCH_SIZE := by
    intro n
    induction n with
    | zero =>
        intro l hl w hw
        have : l = [] := List.eq_nil_of_length_eq_zero (Nat.le_zero.mp hl)
        subst this
        rw [batchWindows_nil] at hw
        simp at hw
    | succ n ih =>
        intro l hl w hw
        cases l with
        | nil =>
            rw [batchWindows_nil] at hw
            simp at hw
        | cons x xs =>
            rw [batchWindows_cons] at hw
            rcases List.mem_cons.mp hw with h1 | h2
            · subst h1
              exact List.length_take_le BATCH_SIZE (x :: xs)
            · have hdrop : ((x :: xs).drop BATCH_SIZE).length ≤ n := by
                simp only [List.length_drop, List.length_cons, BATCH_SIZE] at hl ⊢
                omega
              exact ih _ hdrop w h2
  exact H l.length l le_rfl

/-- The batch windows, concatenated in order, reproduce the input list, so
every element is processed in exactly one window. -/
theorem batchWindows_flatten (l : List α) : (batchWindows l).flatten = l := by
  have H : ∀ n, ∀ l : List α, l.length ≤ n → (batchWindows l).flatten = l := by
    intro n
    induction n with
    | zero =>
        intro l hl
        have : l = [] := List.eq_nil_of_length_eq_zero (Nat.le_zero.mp hl)
        subst this
        rw [batchWindows_nil]
        rfl
    | succ n ih =>
        intro l hl
        cases l with
        | nil =>
            rw [batchWindows_nil]
            rfl
        | cons x xs =>
            rw [batchWindows_cons, List.flatten_cons]
            have hdrop : ((x :: xs).drop BATCH_SIZE).length ≤ n := by
              simp only [List.length_drop, List.length_cons, BATCH_SIZE] at hl ⊢
              omega
            rw [ih _ hdrop]
            exact List.take_append_drop _ _
  exact H l.length l le_rfl

/-- The fresh transaction ids allocated per window are pairwise distinct. -/
theorem windowsWithFreshTxns_txns_nodup (firstTxn : Txn) (l : List α) :
    ((windowsWithFreshTxns firstTxn l).map Prod.fst).Nodup := by
  unfold windowsWithFreshTxns
  rw [List.map_map]
  have : (Prod.fst ∘ fun p : Nat × List α => (firstTxn + p.1, p.2)) =
      (fun p : Nat × List α => firstTxn + p.1) := rfl
  rw [this]
  have h2 : (fun p : Nat × List α => firstTxn + p.1) =
      ((fun i => firstTxn + i) ∘ Prod.fst) := rfl
  rw [h2, ← List.map_map, List.enum_map_fst]
  exact (List.nodup_range _).map (fun a b hab => Nat.add_left_cancel hab)

/-- The windows carried alongside the fresh transactions are exactly the
batch windows, in order. -/
theorem windowsWithFreshTxns_snd (firstTxn : Txn) (l : List α) :
    (windowsWithFreshTxns firstTxn l).map Prod.snd = batchWindows l := by
  unfold windowsWithFreshTxns
  rw [List.map_map]
  have : (Prod.snd ∘ fun p : Nat × List α => (firstTxn + p.1, p.2)) =
      (Prod.snd : Nat × List α → List α) := rfl
  rw [this, List.enum_map_snd]

/-- C7: both `purgeDeletedObjectsInBatches` and
`updateChangedObjectsInBatches` process their input in windows of at most
`BATCH_SIZE = 50` names; the concatenation of the windows is the input list,
so every name lands in exactly one window; and each window runs under its own
freshly allocated transaction (the per-window transaction ids are pairwise
distinct), so no more than 50 purges or 50 updates share a transaction. -/
theorem C7_batch_windowing (firstTxn : Txn) (deleted changed : List String) :
    BATCH_SIZE = 50 ∧
    (∀ w ∈ batchWindows deleted, w.length ≤ BATCH_SIZE) ∧
    (∀ w ∈ batchWindows changed, w.length ≤ BATCH_SIZE) ∧
    (batchWindows deleted).flatten = deleted ∧
    (batchWindows changed).flatten = changed ∧
    (windowsWithFreshTxns firstTxn deleted).map Prod.snd = batchWindows deleted ∧
    ((windowsWithFreshTxns firstTxn deleted).map Prod.fst).Nodup ∧
    (windowsWithFreshTxns firstTxn changed).map Prod.snd = batchWindows changed ∧
    ((windowsWithFreshTxns firstTxn changed).map Prod.fst).Nodup := by
  exact ⟨rfl, batchWindows_length_le deleted, batchWindows_length_le changed,
    batchWindows_flatten deleted, batchWindows_flatten changed,
    windowsWithFreshTxns_snd firstTxn deleted, windowsWithFreshTxns_txns_nodup firstTxn deleted,
    windowsWithFreshTxns_snd firstTxn changed, windowsWithFreshTxns_txns_nodup firstTxn changed⟩

theorem lookup_pairs_none (objs : List CalObject) (n : String) :
    List.lookup n (objs.map fun o => (o.name, o)) = Option.none ↔
      ∀ o ∈ objs, o.name ≠ n := by
  induction objs with
  | nil => simp [List.lookup]
  | cons o os ih =>
      simp only [List.map_cons, List.lookup_cons]
      by_cases h : o.name = n
      · simp [h]
      · have hbeq : (n == o.name) = false := by
          simp [beq_eq_false_iff_ne]
          exact fun he => h he.symm
        simp only [hbeq]
        rw [ih]
        constructor
        · intro hall q hq
          rcases List.mem_cons.mp hq with rfl | hq2
          · exact h
          · exact hall q hq2
        · intro hall q hq
          exact hall q (List.mem_cons_of_mem o hq)

theorem lookup_pairs_some (objs : List CalObject) (n : String) (lo : CalObject) :
    List.lookup n (objs.map fun o => (o.name, o)) = some lo →
      lo ∈ objs ∧ lo.name = n := by
  induction objs with
  | nil => simp [List.lookup]
  | cons o os ih =>
      simp only [List.map_cons, List.lookup_cons]
      by_cases h : (n == o.name) = true
      · simp only [h, if_true]
        intro he
        obtain rfl : o = lo := by injection he
        exact ⟨List.mem_cons_self o os, (beq_iff_eq.mp h).symm⟩
      · simp only [h]
        intro he
        obtain ⟨h1, h2⟩ := ih (by simpa using he)
        exact ⟨List.mem_cons_of_mem o h1, h2⟩

/-- The `actual_changes` accumulation loop of `findObjectsToSync`, as a
filter-map. -/
theorem foldl_actual_changes (l : List (String × CalObject))
    (d : List (String × CalObject)) (acc : List String) :
    l.foldl (fun acc p =>
        match List.lookup p.1 d with
        | Option.none => acc ++ [p.1]
        | some lo => if p.2.md5 ≠ lo.md5 then acc ++ [p.1] else acc) acc =
      acc ++ (l.filter (fun p =>
        match List.lookup p.1 d with
        | Option.none => true
        | some lo => decide (p.2.md5 ≠ lo.md5))).map Prod.fst := by
  induction l generalizing acc with
  | nil => simp
  | cons p l ih =>
      rw [List.foldl_cons, ih]
      rcases hcase : List.lookup p.1 d with _ | lo
      · simp only [hcase, List.filter_cons]
        simp
      · simp only [hcase, List.filter_cons]
        by_cases hmd : p.2.md5 ≠ lo.md5
        · simp [hmd]
        · simp [hmd]

/-- Injectivity on members from `Nodup` of the mapped names. -/
theorem eq_of_nodup_names (objs : List CalObject)
    (h : (objs.map CalObject.name).Nodup) :
    ∀ a ∈ objs, ∀ b ∈ objs, a.name = b.name → a = b := by
  intro a ha b hb hab
  exact List.inj_on_of_nodup_map h ha hb hab

/-- C3 (counterexample): on `changed = ["a"]` with the name existing neither
remotely nor locally, the claim's change set (`"a"` is absent from the local
calendar, so it qualifies) is `["a"]`, but `findObjectsToSync` only iterates
names it could fetch remotely and returns `[]`. -/
theorem C3_counterexample :
    (findObjectsToSync [] [] ["a"] []).1 = [] ∧
    specClaimedChangeSet [] [] ["a"] = ["a"] ∧
    (findObjectsToSync [] [] ["a"] []).1 ≠ specClaimedChangeSet [] [] ["a"] := by
  refine ⟨?_, ?_, ?_⟩ <;> decide

/-- C3 (amended): assuming names are unique within each calendar, the first
component of `findObjectsToSync` contains exactly the names in `changed` that
exist in the remote calendar and are either absent from the local calendar or
differ in md5 from the local object; the `deleted` list passes through
unchanged; and purging a name with no local object is a silent no-op. -/
theorem C3_findObjectsToSync_amended (remoteObjs localObjs : List CalObject)
    (changed deleted : List String)
    (hr : (remoteObjs.map CalObject.name).Nodup)
    (hl : (localObjs.map CalObject.name).Nodup) :
    (findObjectsToSync remoteObjs localObjs changed deleted).2 = deleted ∧
    (∀ n : String,
      n ∈ (findObjectsToSync remoteObjs localObjs changed deleted).1 ↔
        n ∈ changed ∧ ∃ ro ∈ remoteObjs, ro.name = n ∧
          ∀ lo ∈ localObjs, lo.name = n → lo.md5 ≠ ro.md5) ∧
    (∀ (n : String) (ns : List String), (∀ o ∈ localObjs, o.name ≠ n) →
      purgeBatch localObjs (n :: ns) = purgeBatch localObjs ns) := by
  have hRnd : (((objectResourcesWithNames remoteObjs changed).map
      (fun o => (o.name, o))).map Prod.fst).Nodup := by
    rw [List.map_map]
    exact List.Nodup.sublist
      (List.Sublist.map CalObject.name (List.filter_sublist remoteObjs)) hr
  have hLnd : (((objectResourcesWithNames localObjs changed).map
      (fun o => (o.name, o))).map Prod.fst).Nodup := by
    rw [List.map_map]
    exact List.Nodup.sublist
      (List.Sublist.map CalObject.name (List.filter_sublist localObjs)) hl
  have hfst :
      (findObjectsToSync remoteObjs localObjs changed deleted).1 =
        (((objectResourcesWithNames remoteObjs changed).map (fun o => (o.name, o))).filter
          (fun p =>
            match List.lookup p.1
                ((objectResourcesWithNames localObjs changed).map (fun o => (o.name, o))) with
            | Option.none => true
            | some lo => decide (p.2.md5 ≠ lo.md5))).map Prod.fst := by
    unfold findObjectsToSync
    simp only []
    rw [pydict_of_nodup_keys _ hRnd, pydict_of_nodup_keys _ hLnd,
      foldl_actual_changes]
    simp
  refine ⟨rfl, ?_, ?_⟩
  · intro n
    rw [hfst]
    simp only [List.mem_map, List.mem_filter]
    constructor
    · rintro ⟨p, ⟨⟨ro, hroR, rfl⟩, hpcond⟩, hpn⟩
      dsimp only at hpn hpcond
      subst hpn
      have hroRmem := List.mem_filter.mp hroR
      have hnchanged : ro.name ∈ changed := by
        simpa using hroRmem.2
      refine ⟨hnchanged, ro, hroRmem.1, rfl, ?_⟩
      intro lo hlo hloname
      have hloL : lo ∈ objectResourcesWithNames localObjs changed := by
        unfold objectResourcesWithNames
        rw [List.mem_filter]
        exact ⟨hlo, by simp [hloname, hnchanged]⟩
      rcases hcase : List.lookup ro.name
          ((objectResourcesWithNames localObjs changed).map (fun o => (o.name, o))) with
          _ | lo'
      · exact absurd hloname ((lookup_pairs_none _ _).mp hcase lo hloL)
      · obtain ⟨hlo'L, hlo'name⟩ := lookup_pairs_some _ _ _ hcase
        have hLsub : ((objectResourcesWithNames localObjs changed).map CalObject.name).Nodup :=
          List.Nodup.sublist
            (List.Sublist.map CalObject.name (List.filter_sublist localObjs)) hl
        obtain rfl : lo = lo' :=
          eq_of_nodup_names _ hLsub lo hloL lo' hlo'L (hloname.trans hlo'name.symm)
        rw [hcase] at hpcond
        simp only [decide_eq_true_eq] at hpcond
        exact Ne.symm hpcond
    · rintro ⟨hn, ro, hro, hron, hmd5⟩
      have hroR : ro ∈ objectResourcesWithNames remoteObjs changed := by
        unfold objectResourcesWithNames
        rw [List.mem_filter]
        exact ⟨hro, by simp [hron, hn]⟩
      refine ⟨(ro.name, ro), ⟨⟨ro, hroR, rfl⟩, ?_⟩, hron⟩
      dsimp only
      rcases hcase : List.lookup ro.name
          ((objectResourcesWithNames localObjs changed).map (fun o => (o.name, o))) with
          _ | lo
      · simp [hcase]
      · rw [hcase]
        obtain ⟨hloL, hlon⟩ := lookup_pairs_some _ _ _ hcase
        have hlomem := List.mem_filter.mp hloL
        have hne := hmd5 lo hlomem.1 (hlon.trans hron)
        simp only [decide_eq_true_eq]
        exact Ne.symm hne
  · intro n ns hnone
    unfold purgeBatch
    apply List.filter_congr
    intro o ho
    have : o.name ≠ n := hnone o ho
    simp [List.mem_cons, this]

/-- Witness for C3's amended theorem: one remote object whose md5 differs
from the local object of the same name is selected for sync. -/
theorem C3_findObjectsToSync_amended_witness :
    ((([⟨1, "e1", "x2"⟩] : List CalObject).map CalObject.name).Nodup ∧
     (([⟨100, "e1", "x1"⟩] : List CalObject).map CalObject.name).Nodup) ∧
    "e1" ∈ (findObjectsToSync [⟨1, "e1", "x2"⟩] [⟨100, "e1", "x1"⟩]
      ["e1"] ["gone"]).1 ∧
    (findObjectsToSync [⟨1, "e1", "x2"⟩] [⟨100, "e1", "x1"⟩] ["e1"] ["gone"]).2 =
      ["gone"] := by
  have h := C3_findObjectsToSync_amended [⟨1, "e1", "x2"⟩] [⟨100, "e1", "x1"⟩]
    ["e1"] ["gone"] (by decide) (by decide)
  refine ⟨⟨by decide, by decide⟩, ?_, h.1⟩
  exact (h.2.1 "e1").mpr ⟨by decide, ⟨1, "e1", "x2"⟩, by decide, rfl, by decide⟩

/-- Witness for C7 at concrete lists of 3 names, batching degenerately into
one window each. -/
theorem C7_batch_windowing_witness :
    BATCH_SIZE = 50 ∧
    (batchWindows ["a", "b", "c"]).flatten = ["a", "b", "c"] ∧
    ∀ w ∈ batchWindows ["x"], w.length ≤ BATCH_SIZE := by
  have h := C7_batch_windowing 1 ["a", "b", "c"] ["x"]
  exact ⟨h.1, h.2.2.2.1, h.2.2.1⟩

/-- The wrapper's success path with a self-created transaction. -/
theorem inTransactionWrapper_none_ok {ε α : Type} (opName diruid : String)
    (freshTxn : Txn) (op : Option Txn → Except ε α) (a : α)
    (h : op (some freshTxn) = .ok a) :
    inTransactionWrapper opName diruid freshTxn op Option.none =
      (.ok a, { created := some (label diruid opName), committed := true,
                aborted := false, loggedError := Option.none }) := by
  simp [inTransactionWrapper, h]

/-- The wrapper's failure path with a self-created transaction. -/
theorem inTransactionWrapper_none_error {ε α : Type} (opName diruid : String)
    (freshTxn : Txn) (op : Option Txn → Except ε α) (e : ε)
    (h : op (some freshTxn) = .error e) :
    inTransactionWrapper opName diruid freshTxn op Option.none =
      (.failure e, { created := some (label diruid opName), committed := false,
                     aborted := true, loggedError := some (label diruid opName) }) := by
  simp [inTransactionWrapper, h]

theorem lookup_assoc_none_iff {κ β : Type} [BEq κ] [LawfulBEq κ]
    (l : List (κ × β)) (k : κ) :
    List.lookup k l = Option.none ↔ ∀ p ∈ l, p.1 ≠ k := by
  induction l with
  | nil => simp [List.lookup]
  | cons p ps ih =>
      obtain ⟨k', v⟩ := p
      rw [List.lookup_cons]
      by_cases h : k = k'
      · subst h
        simp
      · have hbeq : (k == k') = false := by simp [h]
        simp only [hbeq, Bool.false_eq_true, if_false]
        rw [ih]
        constructor
        · intro hall q hq
          rcases List.mem_cons.mp hq with rfl | hq2
          · exact fun he => h he.symm
          · exact hall q hq2
        · intro hall q hq
          exact hall q (List.mem_cons_of_mem _ hq)

theorem lookup_assoc_some_mem {κ β : Type} [BEq κ] [LawfulBEq κ]
    (l : List (κ × β)) (k : κ) (v : β) :
    List.lookup k l = some v → (k, v) ∈ l := by
  induction l with
  | nil => simp [List.lookup]
  | cons p ps ih =>
      obtain ⟨k', v'⟩ := p
      rw [List.lookup_cons]
      by_cases h : (k == k') = true
      · simp only [h, if_true]
        intro he
        obtain rfl : v' = v := by injection he
        obtain rfl : k = k' := eq_of_beq h
        exact List.mem_cons_self _ _
      · simp only [h, Bool.false_eq_true, if_false]
        intro he
        exact List.mem_cons_of_mem _ (ih he)

theorem lookup_assoc_of_mem_nodup {κ β : Type} [BEq κ] [LawfulBEq κ]
    (l : List (κ × β)) (h : (l.map Prod.fst).Nodup) (k : κ) (v : β)
    (hm : (k, v) ∈ l) : List.lookup k l = some v := by
  induction l with
  | nil => simp at hm
  | cons p ps ih =>
      obtain ⟨k', v'⟩ := p
      rw [List.lookup_cons]
      rcases List.mem_cons.mp hm with he | hm2
      · injection he with h1 h2
        subst h1
        subst h2
        simp
      · have hk : ¬ (k = k') := by
          intro he
          rw [List.map_cons, List.nodup_cons] at h
          exact h.1 (List.mem_map.mpr ⟨(k, v), hm2, he⟩)
        have hbeq : (k == k') = false := by simp [hk]
        simp only [hbeq, Bool.false_eq_true, if_false]
        refine ih ?_ hm2
        rw [List.map_cons, List.nodup_cons] at h
        exact h.2

theorem pair_eq_of_nodup_keys {κ β : Type} (l : List (κ × β))
    (h : (l.map Prod.fst).Nodup) :
    ∀ p ∈ l, ∀ q ∈ l, p.1 = q.1 → p = q :=
  fun _ hp _ hq hpq => List.inj_on_of_nodup_map h hp hq hpq

theorem forall2_mem_left {α β : Type} {R : α → β → Prop} :
    ∀ {l : List α} {ys : List β}, List.Forall₂ R l ys → ∀ x ∈ l, ∃ y ∈ ys, R x y := by
  intro l ys h
  induction h with
  | nil => simp
  | cons hR hrest ih =>
      intro x hx
      rcases List.mem_cons.mp hx with rfl | hx2
      · exact ⟨_, List.mem_cons_self _ _, hR⟩
      · obtain ⟨y, hy, hRy⟩ := ih x hx2
        exact ⟨y, List.mem_cons_of_mem _ hy, hRy⟩

theorem mapM_ok_forall2 {α β : Type} (f : α → Except String β) :
    ∀ l : List α, (∀ x ∈ l, ∃ y, f x = .ok y) →
      ∃ ys, l.mapM f = .ok ys ∧ List.Forall₂ (fun x y => f x = .ok y) l ys := by
  intro l
  induction l with
  | nil => intro _; exact ⟨[], rfl, List.Forall₂.nil⟩
  | cons x xs ih =>
      intro h
      obtain ⟨y, hy⟩ := h x (List.mem_cons_self _ _)
      obtain ⟨ys, hys, hfa⟩ := ih (fun z hz => h z (List.mem_cons_of_mem _ hz))
      refine ⟨y :: ys, ?_, List.Forall₂.cons hy hfa⟩
      rw [List.mapM_cons, hy, hys]
      rfl

theorem mem_addedActionsOf (pairs : List (Nat × Nat)) (x : AttachmentAction) :
    x ∈ addedActionsOf pairs ↔
      ∃ p ∈ pairs, x = AttachmentAction.createAttachment p.2 ∨
        x = AttachmentAction.createMappingRow p.1 p.2 := by
  induction pairs with
  | nil => simp [addedActionsOf]
  | cons p ps ih =>
      have hunfold : addedActionsOf (p :: ps) =
          AttachmentAction.createAttachment p.2 ::
            AttachmentAction.createMappingRow p.1 p.2 :: addedActionsOf ps := rfl
      rw [hunfold]
      constructor
      · intro hx
        rcases List.mem_cons.mp hx with rfl | hx2
        · exact ⟨p, List.mem_cons_self _ _, Or.inl rfl⟩
        · rcases List.mem_cons.mp hx2 with rfl | hx3
          · exact ⟨p, List.mem_cons_self _ _, Or.inr rfl⟩
          · obtain ⟨q, hq, hcase⟩ := ih.mp hx3
            exact ⟨q, List.mem_cons_of_mem _ hq, hcase⟩
      · rintro ⟨q, hq, hcase⟩
        rcases List.mem_cons.mp hq with rfl | hq2
        · rcases hcase with rfl | rfl
          · exact List.mem_cons_self _ _
          · exact List.mem_cons_of_mem _ (List.mem_cons_self _ _)
        · exact List.mem_cons_of_mem _
            (List.mem_cons_of_mem _ (ih.mpr ⟨q, hq2, hcase⟩))

theorem mem_allocatePairs_of_mem (l : List (Nat × Attachment)) (p : Nat × Attachment)
    (hp : p ∈ l) : ∀ n, ∃ i, (p.1, i) ∈ allocatePairs n l := by
  induction l with
  | nil => simp at hp
  | cons q qs ih =>
      intro n
      rcases List.mem_cons.mp hp with rfl | hp2
      · exact ⟨n, by rw [allocatePairs]; exact List.mem_cons_self _ _⟩
      · obtain ⟨i, hi⟩ := ih hp2 (n + 1)
        exact ⟨i, by rw [allocatePairs]; exact List.mem_cons_of_mem _ hi⟩

theorem forall2_mem_right {α β : Type} {R : α → β → Prop} :
    ∀ {l : List α} {ys : List β}, List.Forall₂ R l ys → ∀ y ∈ ys, ∃ x ∈ l, R x y := by
  intro l ys h
  induction h with
  | nil => simp
  | cons hR hrest ih =>
      intro y hy
      rcases List.mem_cons.mp hy with rfl | hy2
      · exact ⟨_, List.mem_cons_self _ _, hR⟩
      · obtain ⟨x, hx, hRx⟩ := ih y hy2
        exact ⟨x, List.mem_cons_of_mem _ hx, hRx⟩

theorem mem_removedEntriesOf (rmap : List (Nat × Attachment))
    (mapping : List (Nat × AttachmentMigrationRecord))
    (p : Nat × AttachmentMigrationRecord) :
    p ∈ removedEntriesOf rmap mapping ↔ p ∈ mapping ∧ ∀ q ∈ rmap, q.1 ≠ p.1 := by
  unfold removedEntriesOf
  rw [List.mem_filter]
  simp

theorem mem_addedEntriesOf (rmap : List (Nat × Attachment))
    (mapping : List (Nat × AttachmentMigrationRecord)) (p : Nat × Attachment) :
    p ∈ addedEntriesOf rmap mapping ↔ p ∈ rmap ∧ ∀ q ∈ mapping, q.1 ≠ p.1 := by
  unfold addedEntriesOf
  rw [List.mem_filter]
  simp

theorem mem_updateEntriesOf (rmap : List (Nat × Attachment))
    (mapping : List (Nat × AttachmentMigrationRecord))
    (p : Nat × AttachmentMigrationRecord) :
    p ∈ updateEntriesOf rmap mapping ↔ p ∈ mapping ∧ ∃ q ∈ rmap, q.1 = p.1 := by
  unfold updateEntriesOf
  rw [List.mem_filter]
  simp

theorem attachmentUpdateStep_ok_cases (rmap lmap : List (Nat × Attachment))
    (p : Nat × AttachmentMigrationRecord) (y : List Nat × List AttachmentAction)
    (h : attachmentUpdateStep rmap lmap p = .ok y) :
    y = ([p.2.localResourceID],
         [AttachmentAction.copyRemote p.2.localResourceID p.1]) ∨
    y = ([], []) := by
  unfold attachmentUpdateStep at h
  rcases h1 : List.lookup p.1 rmap with _ | ra
  · rw [h1] at h
    cases h
  · rw [h1] at h
    dsimp only at h
    rcases h2 : List.lookup p.2.localResourceID lmap with _ | la
    · rw [h2] at h
      cases h
    · rw [h2] at h
      dsimp only at h
      by_cases hmd : ra.md5 ≠ la.md5
      · rw [if_pos hmd] at h
        exact Or.inl (Except.ok.inj h).symm
      · rw [if_neg hmd] at h
        exact Or.inr (Except.ok.inj h).symm

theorem foldlM_links_ok (attMap objMap : List (Nat × Nat)) (links : List AttachmentLink)
    (hmapped : ∀ link ∈ links, (∃ p ∈ attMap, p.1 = link.attachmentID) ∧
      (∃ q ∈ objMap, q.1 = link.calendarObjectID)) :
    ∀ acc, ∃ out, List.foldlM (linkRewriteStep attMap objMap) acc links = .ok out := by
  induction links with
  | nil => intro acc; exact ⟨acc, rfl⟩
  | cons link rest ih =>
      intro acc
      obtain ⟨⟨p, hp, hpk⟩, ⟨q, hq, hqk⟩⟩ := hmapped link (List.mem_cons_self _ _)
      obtain ⟨va, hva⟩ : ∃ v, List.lookup link.attachmentID attMap = some v := by
        rcases hcase : List.lookup link.attachmentID attMap with _ | v
        · exact absurd hpk ((lookup_assoc_none_iff _ _).mp hcase p hp)
        · exact ⟨v, rfl⟩
      obtain ⟨vb, hvb⟩ : ∃ v, List.lookup link.calendarObjectID objMap = some v := by
        rcases hcase : List.lookup link.calendarObjectID objMap with _ | v
        · exact absurd hqk ((lookup_assoc_none_iff _ _).mp hcase q hq)
        · exact ⟨v, rfl⟩
      rw [List.foldlM_cons]
      have hstep : linkRewriteStep attMap objMap acc link = .ok (acc ++ [⟨va, vb⟩]) := by
        unfold linkRewriteStep
        rw [hva, hvb]
      rw [hstep]
      obtain ⟨out, hout⟩ :=
        ih (fun l hl => hmapped l (List.mem_cons_of_mem _ hl)) (acc ++ [⟨va, vb⟩])
      exact ⟨out, by simpa using hout⟩

theorem foldlM_links_error (attMap objMap : List (Nat × Nat)) (links : List AttachmentLink)
    (hbad : ∃ link ∈ links, (∀ p ∈ attMap, p.1 ≠ link.attachmentID) ∨
      (∀ q ∈ objMap, q.1 ≠ link.calendarObjectID)) :
    ∀ acc, ∃ e, List.foldlM (linkRewriteStep attMap objMap) acc links = .error e := by
  induction links with
  | nil => exact absurd hbad (by simp)
  | cons link rest ih =>
      intro acc
      rw [List.foldlM_cons]
      obtain ⟨bad, hbadmem, hbadcase⟩ := hbad
      rcases List.mem_cons.mp hbadmem with rfl | hbadrest
      · rcases hbadcase with hA | hB
        · have hva : List.lookup bad.attachmentID attMap = Option.none :=
            (lookup_assoc_none_iff _ _).mpr hA
          refine ⟨"KeyError: attachmentIDMap", ?_⟩
          have hstep : linkRewriteStep attMap objMap acc bad =
              .error "KeyError: attachmentIDMap" := by
            unfold linkRewriteStep
            rw [hva]
          rw [hstep]
          rfl
        · have hvb : List.lookup bad.calendarObjectID objMap = Option.none :=
            (lookup_assoc_none_iff _ _).mpr hB
          rcases hcase : List.lookup bad.attachmentID attMap with _ | va
          · refine ⟨"KeyError: attachmentIDMap", ?_⟩
            have hstep : linkRewriteStep attMap objMap acc bad =
                .error "KeyError: attachmentIDMap" := by
              unfold linkRewriteStep
              rw [hcase]
            rw [hstep]
            rfl
          · refine ⟨"KeyError: objectIDMap", ?_⟩
            have hstep : linkRewriteStep attMap objMap acc bad =
                .error "KeyError: objectIDMap" := by
              unfold linkRewriteStep
              rw [hcase, hvb]
            rw [hstep]
            rfl
      · rcases hstep : linkRewriteStep attMap objMap acc link with e | acc'
        · exact ⟨e, rfl⟩
        · obtain ⟨e, he⟩ := ih ⟨bad, hbadrest, hbadcase⟩ acc'
          exact ⟨e, by simpa using he⟩

/-- C5: `syncAttachmentTable` partitions attachment ids by set operations on
keys. A remote id with a mapping row but no remote attachment is removed: the
local managed attachment is loaded by its local id and removed without quota
adjustment, and when already gone only the mapping row is deleted. A remote
id with a remote attachment but no mapping row gets a new local placeholder
and a new mapping row, with the fresh local id marked for blob transfer. A
remote id in both has its metadata copied and its local id marked for blob
transfer exactly when the md5s differ. The result is the set of local ids
needing blob transfer and the set of removed remote ids. Hypotheses: ids are
unique on each side (table keys), and every mapping row whose remote id still
exists remotely has its local attachment row present (else `lmap[local_id]`
raises). -/
theorem C5_syncAttachmentTable (rattachments lattachments : List Attachment)
    (records : List AttachmentMigrationRecord) (nextAttachmentId : Nat)
    (hra : (rattachments.map Attachment.aid).Nodup)
    (hla : (lattachments.map Attachment.aid).Nodup)
    (hrec : (records.map AttachmentMigrationRecord.remoteResourceID).Nodup)
    (hrecloc : (records.map AttachmentMigrationRecord.localResourceID).Nodup)
    (hloc : ∀ r ∈ records, (∃ a ∈ rattachments, a.aid = r.remoteResourceID) →
      ∃ la ∈ lattachments, la.aid = r.localResourceID) :
    ∃ dataIds removed actions,
      syncAttachmentTable (some rattachments) lattachments records nextAttachmentId =
        .ok (dataIds, removed, actions) ∧
      (∀ k, k ∈ removed ↔ (∃ r ∈ records, r.remoteResourceID = k) ∧
        ∀ a ∈ rattachments, a.aid ≠ k) ∧
      (∀ r ∈ records, (∀ a ∈ rattachments, a.aid ≠ r.remoteResourceID) →
        ((∃ la ∈ lattachments, la.aid = r.localResourceID) →
          AttachmentAction.removeNoQuota r.localResourceID ∈ actions) ∧
        ((∀ la ∈ lattachments, la.aid ≠ r.localResourceID) →
          AttachmentAction.deleteMappingRow r.remoteResourceID ∈ actions ∧
          AttachmentAction.removeNoQuota r.localResourceID ∉ actions)) ∧
      (∀ a ∈ rattachments, (∀ r ∈ records, r.remoteResourceID ≠ a.aid) →
        ∃ nid, AttachmentAction.createAttachment nid ∈ actions ∧
          AttachmentAction.createMappingRow a.aid nid ∈ actions ∧ nid ∈ dataIds) ∧
      (∀ r ∈ records, ∀ a ∈ rattachments, a.aid = r.remoteResourceID →
        ∀ la ∈ lattachments, la.aid = r.localResourceID →
          (a.md5 ≠ la.md5 →
            AttachmentAction.copyRemote r.localResourceID r.remoteResourceID ∈ actions ∧
            r.localResourceID ∈ dataIds) ∧
          (a.md5 = la.md5 →
            AttachmentAction.copyRemote r.localResourceID r.remoteResourceID ∉ actions)) := by
  have hrN : ((rattachments.map (fun a => (a.aid, a))).map Prod.fst).Nodup := by
    rw [List.map_map]
    exact hra
  have hlN : ((lattachments.map (fun a => (a.aid, a))).map Prod.fst).Nodup := by
    rw [List.map_map]
    exact hla
  have hmN : ((records.map (fun r => (r.remoteResourceID, r))).map Prod.fst).Nodup := by
    rw [List.map_map]
    exact hrec
  have hpr := pydict_of_nodup_keys _ hrN
  have hpl := pydict_of_nodup_keys _ hlN
  have hpm := pydict_of_nodup_keys _ hmN
  have hall : ∀ p ∈ updateEntriesOf (rattachments.map (fun a => (a.aid, a)))
      (records.map (fun r => (r.remoteResourceID, r))),
      ∃ y, attachmentUpdateStep (rattachments.map (fun a => (a.aid, a)))
        (lattachments.map (fun a => (a.aid, a))) p = .ok y := by
    intro p hp
    obtain ⟨hpm2, q, hq, hqk⟩ := (mem_updateEntriesOf _ _ p).mp hp
    obtain ⟨r, hr, rfl⟩ := List.mem_map.mp hpm2
    obtain ⟨a, ha, rfl⟩ := List.mem_map.mp hq
    have haid : a.aid = r.remoteResourceID := hqk
    obtain ⟨la, hla2, hlaid⟩ := hloc r hr ⟨a, ha, haid⟩
    have hlook1 : List.lookup (r.remoteResourceID, r).1
        (rattachments.map (fun a => (a.aid, a))) = some a := by
      apply lookup_assoc_of_mem_nodup _ hrN
      rw [show ((r.remoteResourceID, r).1 : Nat) = a.aid from haid.symm]
      exact List.mem_map_of_mem _ ha
    have hlook2 : List.lookup (r.remoteResourceID, r).2.localResourceID
        (lattachments.map (fun a => (a.aid, a))) = some la := by
      apply lookup_assoc_of_mem_nodup _ hlN
      have : ((r.remoteResourceID, r).2.localResourceID : Nat) = la.aid := hlaid.symm
      rw [this]
      exact List.mem_map_of_mem _ hla2
    by_cases hmd : a.md5 ≠ la.md5
    · refine ⟨([(r.remoteResourceID, r).2.localResourceID],
        [AttachmentAction.copyRemote (r.remoteResourceID, r).2.localResourceID
          (r.remoteResourceID, r).1]), ?_⟩
      unfold attachmentUpdateStep
      rw [hlook1]
      dsimp only
      rw [hlook2]
      dsimp only
      rw [if_pos hmd]
    · refine ⟨([], []), ?_⟩
      unfold attachmentUpdateStep
      rw [hlook1]
      dsimp only
      rw [hlook2]
      dsimp only
      rw [if_neg hmd]
  obtain ⟨parts, hmapM, hfa⟩ := mapM_ok_forall2 _ _ hall
  refine ⟨(allocatePairs nextAttachmentId
              (addedEntriesOf (rattachments.map (fun a => (a.aid, a)))
                (records.map (fun r => (r.remoteResourceID, r))))).map Prod.snd ++
            (parts.map Prod.fst).flatten,
          (removedEntriesOf (rattachments.map (fun a => (a.aid, a)))
             (records.map (fun r => (r.remoteResourceID, r)))).map Prod.fst,
          removedActionsOf (lattachments.map (fun a => (a.aid, a)))
             (removedEntriesOf (rattachments.map (fun a => (a.aid, a)))
               (records.map (fun r => (r.remoteResourceID, r)))) ++
             addedActionsOf (allocatePairs nextAttachmentId
               (addedEntriesOf (rattachments.map (fun a => (a.aid, a)))
                 (records.map (fun r => (r.remoteResourceID, r))))) ++
             (parts.map Prod.snd).flatten,
          ?_, ?_, ?_, ?_, ?_⟩
  · unfold syncAttachmentTable
    simp only []
    rw [hpr, hpl, hpm, hmapM]
  · -- removed characterization
    intro k
    constructor
    · intro hk
      obtain ⟨p, hp, rfl⟩ := List.mem_map.mp hk
      obtain ⟨hpm2, hnone⟩ := (mem_removedEntriesOf _ _ p).mp hp
      obtain ⟨r, hr, rfl⟩ := List.mem_map.mp hpm2
      exact ⟨⟨r, hr, rfl⟩,
        fun a ha => hnone (a.aid, a) (List.mem_map_of_mem _ ha)⟩
    · rintro ⟨⟨r, hr, rfl⟩, hnone⟩
      refine List.mem_map.mpr ⟨(r.remoteResourceID, r), ?_, rfl⟩
      refine (mem_removedEntriesOf _ _ _).mpr ⟨List.mem_map_of_mem _ hr, ?_⟩
      intro q hq
      obtain ⟨a, ha, rfl⟩ := List.mem_map.mp hq
      exact hnone a ha
  · -- removed loop behaviour
    intro r hr hnoremote
    have hpR : (r.remoteResourceID, r) ∈
        removedEntriesOf (rattachments.map (fun a => (a.aid, a)))
          (records.map (fun r => (r.remoteResourceID, r))) := by
      refine (mem_removedEntriesOf _ _ _).mpr ⟨List.mem_map_of_mem _ hr, ?_⟩
      intro q hq
      obtain ⟨a, ha, rfl⟩ := List.mem_map.mp hq
      exact hnoremote a ha
    constructor
    · rintro ⟨la, hla2, hlaid⟩
      have hlook : List.lookup r.localResourceID
          (lattachments.map (fun a => (a.aid, a))) = some la := by
        apply lookup_assoc_of_mem_nodup _ hlN
        rw [show (r.localResourceID : Nat) = la.aid from hlaid.symm]
        exact List.mem_map_of_mem _ hla2
      apply List.mem_append_left
      apply List.mem_append_left
      unfold removedActionsOf
      refine List.mem_map.mpr ⟨(r.remoteResourceID, r), hpR, ?_⟩
      dsimp only
      rw [hlook]
    · intro hnola
      have hlook : List.lookup r.localResourceID
          (lattachments.map (fun a => (a.aid, a))) = Option.none := by
        apply (lookup_assoc_none_iff _ _).mpr
        intro q hq
        obtain ⟨la, hla2, rfl⟩ := List.mem_map.mp hq
        exact hnola la hla2
      constructor
      · apply List.mem_append_left
        apply List.mem_append_left
        unfold removedActionsOf
        refine List.mem_map.mpr ⟨(r.remoteResourceID, r), hpR, ?_⟩
        dsimp only
        rw [hlook]
      · intro hmem
        rcases List.mem_append.mp hmem with hab | hC
        · rcases List.mem_append.mp hab with hA | hB
          · unfold removedActionsOf at hA
            obtain ⟨p', hp', hact⟩ := List.mem_map.mp hA
            rcases hcase : List.lookup p'.2.localResourceID
                (lattachments.map (fun a => (a.aid, a))) with _ | la'
            · rw [hcase] at hact
              dsimp only at hact
              cases hact
            · rw [hcase] at hact
              dsimp only at hact
              have hploc : p'.2.localResourceID = r.localResourceID := by
                injection hact
              obtain ⟨hp'm, _⟩ := (mem_removedEntriesOf _ _ _).mp hp'
              obtain ⟨r', hr', rfl⟩ := List.mem_map.mp hp'm
              have : r' = r :=
                List.inj_on_of_nodup_map hrecloc hr' hr hploc
              subst this
              rw [hcase] at hlook
              cases hlook
          · obtain ⟨q, _, hcase⟩ := (mem_addedActionsOf _ _).mp hB
            rcases hcase with h1 | h2
            · cases h1
            · cases h2
        · obtain ⟨acts, hacts, hzin⟩ := List.mem_flatten.mp hC
          obtain ⟨y, hy, rfl⟩ := List.mem_map.mp hacts
          obtain ⟨p', hp', hstep⟩ := forall2_mem_right hfa y hy
          rcases attachmentUpdateStep_ok_cases _ _ _ _ hstep with h1 | h1
          · rw [h1] at hzin
            simp at hzin
          · rw [h1] at hzin
            simp at hzin
  · -- added loop behaviour
    intro a ha hnorec
    have haE : (a.aid, a) ∈
        addedEntriesOf (rattachments.map (fun a => (a.aid, a)))
          (records.map (fun r => (r.remoteResourceID, r))) := by
      refine (mem_addedEntriesOf _ _ _).mpr ⟨List.mem_map_of_mem _ ha, ?_⟩
      intro q hq
      obtain ⟨r, hr, rfl⟩ := List.mem_map.mp hq
      exact hnorec r hr
    obtain ⟨i, hi⟩ := mem_allocatePairs_of_mem _ _ haE nextAttachmentId
    refine ⟨i, ?_, ?_, ?_⟩
    · apply List.mem_append_left
      apply List.mem_append_right
      exact (mem_addedActionsOf _ _).mpr ⟨((a.aid, a).1, i), hi, Or.inl rfl⟩
    · apply List.mem_append_left
      apply List.mem_append_right
      exact (mem_addedActionsOf _ _).mpr ⟨((a.aid, a).1, i), hi, Or.inr rfl⟩
    · apply List.mem_append_left
      exact List.mem_map.mpr ⟨((a.aid, a).1, i), hi, rfl⟩
  · -- update loop behaviour
    intro r hr a ha haid la hla2 hlaid
    have hpU : (r.remoteResourceID, r) ∈
        updateEntriesOf (rattachments.map (fun a => (a.aid, a)))
          (records.map (fun r => (r.remoteResourceID, r))) := by
      refine (mem_updateEntriesOf _ _ _).mpr
        ⟨List.mem_map_of_mem _ hr, (a.aid, a), List.mem_map_of_mem _ ha, haid⟩
    have hlook1 : List.lookup (r.remoteResourceID : Nat)
        (rattachments.map (fun a => (a.aid, a))) = some a := by
      apply lookup_assoc_of_mem_nodup _ hrN
      rw [show (r.remoteResourceID : Nat) = a.aid from haid.symm]
      exact List.mem_map_of_mem _ ha
    have hlook2 : List.lookup (r.localResourceID : Nat)
        (lattachments.map (fun a => (a.aid, a))) = some la := by
      apply lookup_assoc_of_mem_nodup _ hlN
      rw [show (r.localResourceID : Nat) = la.aid from hlaid.symm]
      exact List.mem_map_of_mem _ hla2
    obtain ⟨y, hy, hstep⟩ := forall2_mem_left hfa _ hpU
    constructor
    · intro hmd
      have hval : attachmentUpdateStep (rattachments.map (fun a => (a.aid, a)))
          (lattachments.map (fun a => (a.aid, a))) (r.remoteResourceID, r) =
          .ok ([r.localResourceID],
               [AttachmentAction.copyRemote r.localResourceID r.remoteResourceID]) := by
        unfold attachmentUpdateStep
        rw [hlook1]
        dsimp only
        rw [hlook2]
        dsimp only
        rw [if_pos hmd]
      have hyval : ([r.localResourceID],
          [AttachmentAction.copyRemote r.localResourceID r.remoteResourceID]) = y :=
        Except.ok.inj (hval.symm.trans hstep)
      constructor
      · apply List.mem_append_right
        refine List.mem_flatten.mpr ⟨y.2, List.mem_map_of_mem _ hy, ?_⟩
        rw [← hyval]
        exact List.mem_cons_self _ _
      · apply List.mem_append_right
        refine List.mem_flatten.mpr ⟨y.1, List.mem_map_of_mem _ hy, ?_⟩
        rw [← hyval]
        exact List.mem_cons_self _ _
    · intro hmd hmem
      have hval : attachmentUpdateStep (rattachments.map (fun a => (a.aid, a)))
          (lattachments.map (fun a => (a.aid, a))) (r.remoteResourceID, r) =
          .ok ([], []) := by
        unfold attachmentUpdateStep
        rw [hlook1]
        dsimp only
        rw [hlook2]
        dsimp only
        rw [if_neg (by simpa using hmd)]
      rcases List.mem_append.mp hmem with hab | hC
      · rcases List.mem_append.mp hab with hA | hB
        · unfold removedActionsOf at hA
          obtain ⟨p', _, hact⟩ := List.mem_map.mp hA
          rcases hcase : List.lookup p'.2.localResourceID
              (lattachments.map (fun a => (a.aid, a))) with _ | la'
          · rw [hcase] at hact
            dsimp only at hact
            cases hact
          · rw [hcase] at hact
            dsimp only at hact
            cases hact
        · obtain ⟨q, _, hcase⟩ := (mem_addedActionsOf _ _).mp hB
          rcases hcase with h1 | h1
          · cases h1
          · cases h1
      · obtain ⟨acts, hacts, hzin⟩ := List.mem_flatten.mp hC
        obtain ⟨y', hy', rfl⟩ := List.mem_map.mp hacts
        obtain ⟨p', hp', hstep'⟩ := forall2_mem_right hfa y' hy'
        rcases attachmentUpdateStep_ok_cases _ _ _ _ hstep' with h1 | h1
        · rw [h1] at hzin
          rcases List.mem_cons.mp hzin with h2 | h2
          · have hk : p'.1 = r.remoteResourceID := by
              injection h2.symm
            have hp'm := ((mem_updateEntriesOf _ _ _).mp hp').1
            have hpeq : p' = (r.remoteResourceID, r) :=
              pair_eq_of_nodup_keys _ hmN p' hp'm (r.remoteResourceID, r)
                (List.mem_map_of_mem _ hr) hk
            rw [hpeq, hval] at hstep'
            have heq := Except.ok.inj hstep'
            rw [h1] at heq
            simp at heq
          · simp at h2
        · rw [h1] at hzin
          simp at hzin

theorem any_key_of_lookup {κ β : Type} [BEq κ] [LawfulBEq κ]
    (l : List (κ × β)) (k : κ) (v : β) (h : List.lookup k l = some v) :
    l.any (fun p => p.1 == k) = true := by
  have hm := lookup_assoc_some_mem l k v h
  exact List.any_eq_true.mpr ⟨(k, v), hm, by simp⟩

theorem lookup_isSome_of_any {κ β : Type} [BEq κ] [LawfulBEq κ]
    (l : List (κ × β)) (k : κ) (h : l.any (fun p => p.1 == k) = true) :
    ∃ v, List.lookup k l = some v := by
  rcases hcase : List.lookup k l with _ | v
  · obtain ⟨p, hp, hpk⟩ := List.any_eq_true.mp h
    exact absurd (eq_of_beq hpk) ((lookup_assoc_none_iff l k).mp hcase p hp)
  · exact ⟨v, rfl⟩

theorem lookup_append_last {κ β : Type} [BEq κ] [LawfulBEq κ]
    (l : List (κ × β)) (k : κ) (v : β) (h : ∀ p ∈ l, p.1 ≠ k) :
    List.lookup k (l ++ [(k, v)]) = some v := by
  induction l with
  | nil => simp [List.lookup]
  | cons p ps ih =>
      obtain ⟨k', v'⟩ := p
      rw [List.cons_append, List.lookup_cons]
      have hk : (k == k') = false := by
        simp only [beq_eq_false_iff_ne, ne_eq]
        intro he
        exact h (k', v') (List.mem_cons_self _ _) he.symm
      simp only [hk, Bool.false_eq_true, if_false]
      exact ih (fun q hq => h q (List.mem_cons_of_mem _ hq))

theorem map_id_of_mem {α : Type} (l : List α) (f : α → α) (h : ∀ x ∈ l, f x = x) :
    l.map f = l := by
  induction l with
  | nil => rfl
  | cons x xs ih =>
      rw [List.map_cons, h x (List.mem_cons_self _ _),
        ih (fun y hy => h y (List.mem_cons_of_mem _ hy))]

/-- Updating a stored sync token to the value it already has leaves the state
unchanged. -/
theorem updateSyncState_same_token (st : SyncState) (rec : CalendarMigrationRecord)
    (t : Option String)
    (h : ∀ r ∈ st.records, r.remoteResourceID = rec.remoteResourceID →
      r.lastSyncToken = t) :
    updateSyncState st rec t false = st := by
  unfold updateSyncState
  simp only [Bool.false_eq_true, if_false]
  have hmap : st.records.map (fun r =>
      if r.remoteResourceID == rec.remoteResourceID then
        { r with lastSyncToken := t } else r) = st.records := by
    apply map_id_of_mem
    intro r hr
    by_cases hk : r.remoteResourceID = rec.remoteResourceID
    · have hbeq : (r.remoteResourceID == rec.remoteResourceID) = true := by simp [hk]
      rw [if_pos hbeq, ← h r hr hk]
    · have hbeq : (r.remoteResourceID == rec.remoteResourceID) = false := by simp [hk]
      simp [hbeq]
  rw [hmap]

theorem applyPurgeBatch_records (st : SyncState) (localID : Nat) (names : List String) :
    (applyPurgeBatch st localID names).1.records = st.records := by
  unfold applyPurgeBatch
  rcases hfind : st.calendars.find? (fun c => c.lid == localID) with _ | c
  · rw [hfind]
  · rw [hfind]

theorem purgeDeletedInBatches_records (st : SyncState) (localID : Nat)
    (deleted : List String) :
    (purgeDeletedInBatches st localID deleted).1.records = st.records := by
  unfold purgeDeletedInBatches
  suffices H : ∀ (ws : List (List String)) (acc : SyncState × Nat),
      ((ws.foldl (fun acc w =>
          let (st1, n) := acc
          let (st2, n2) := applyPurgeBatch st1 localID w
          (st2, n + n2)) acc).1).records = acc.1.records by
    exact H (batchWindows deleted) (st, 0)
  intro ws
  induction ws with
  | nil => intro acc; rfl
  | cons w ws ih =>
      intro acc
      obtain ⟨st1, n⟩ := acc
      rw [List.foldl_cons, ih]
      exact applyPurgeBatch_records st1 localID w

theorem applyUpdateBatch_ok_records (remoteHome : Option (List RemoteCalendar))
    (st : SyncState) (localID remoteID : Nat) (names : List String)
    (st2 : SyncState) (n : Nat)
    (h : applyUpdateBatch remoteHome st localID remoteID names = .ok (st2, n)) :
    st2.records = st.records := by
  unfold applyUpdateBatch at h
  rcases remoteHome with _ | rcals
  · cases h
  · dsimp only at h
    rcases hf1 : rcals.find? (fun c => c.rid == remoteID) with _ | rc
    · rw [hf1] at h
      exact (congrArg (fun p => p.1.records) (Except.ok.inj h)).symm
    · rw [hf1] at h
      rcases hf2 : st.calendars.find? (fun c => c.lid == localID) with _ | lc
      · rw [hf2] at h
        cases h
      · rw [hf2] at h
        exact (congrArg (fun p => p.1.records) (Except.ok.inj h)).symm

theorem updateChangedInBatches_records (remoteHome : Option (List RemoteCalendar))
    (st : SyncState) (localID remoteID : Nat) (changed : List String) :
    (updateChangedInBatches remoteHome st localID remoteID changed).1.records =
      st.records := by
  unfold updateChangedInBatches
  suffices H : ∀ (ws : List (List String)) (acc : SyncState × Nat),
      ((ws.foldl (fun acc w =>
          let (st1, n) := acc
          match applyUpdateBatch remoteHome st1 localID remoteID w with
          | .ok (st2, n2) => (st2, n + n2)
          | .error _ => (st1, n)) acc).1).records = acc.1.records by
    exact H (batchWindows changed) (st, 0)
  intro ws
  induction ws with
  | nil => intro acc; rfl
  | cons w ws ih =>
      intro acc
      obtain ⟨st1, n⟩ := acc
      rw [List.foldl_cons, ih]
      dsimp only
      rcases hcase : applyUpdateBatch remoteHome st1 localID remoteID w with e | p
      · rfl
      · obtain ⟨st2a, n2⟩ := p
        exact applyUpdateBatch_ok_records _ _ _ _ _ st2a n2 hcase

/-- The token-equality short-circuit of `syncCalendar`: with a stored record
whose token equals the remote token, the whole body reduces to
`updateSyncState` — `resourceNamesSinceToken` is not called and no object is
touched. -/
theorem syncCalendar_skip (rcals : List RemoteCalendar) (remoteID : Nat)
    (st : SyncState) (lss rss : List (Nat × CalendarMigrationRecord))
    (rec rrec : CalendarMigrationRecord)
    (hl : List.lookup remoteID lss = some rec)
    (hr : List.lookup remoteID rss = some rrec)
    (htok : rec.lastSyncToken = rrec.lastSyncToken) :
    syncCalendarModel rcals remoteID st lss rss =
      .ok (updateSyncState st rec rrec.lastSyncToken false, lss, ⟨0, 0⟩) := by
  have hany : lss.any (fun p => p.1 == remoteID) = true :=
    any_key_of_lookup lss remoteID rec hl
  unfold syncCalendarModel
  simp only [hany, if_true]
  rw [hl, hr]
  simp only []
  rw [if_neg (by simp [htok])]

/-- The effect of one successful `syncCalendar` call on the stored records
and the in-memory dict: with the remote id already mapped, the stored
record's token is rewritten to the remote token; otherwise a new record
carrying the remote token is appended (and the dict gets the fresh record
with a `None` token, as built before `updateSyncState` ran). -/
theorem syncCalendarModel_ok_shape (rcals : List RemoteCalendar) (k : Nat)
    (st : SyncState) (lss rss : List (Nat × CalendarMigrationRecord))
    (rrec : CalendarMigrationRecord)
    (hC : ∀ p ∈ lss, p.2.remoteResourceID = p.1)
    (hr : List.lookup k rss = some rrec)
    (hrtok : rrec.lastSyncToken ≠ Option.none)
    (st' : SyncState) (lss' : List (Nat × CalendarMigrationRecord)) (tr' : SyncTrace)
    (h : syncCalendarModel rcals k st lss rss = .ok (st', lss', tr')) :
    (lss.any (fun p => p.1 == k) = true →
      st'.records = st.records.map (fun r =>
        if r.remoteResourceID == k then { r with lastSyncToken := rrec.lastSyncToken }
        else r) ∧ lss' = lss) ∧
    (lss.any (fun p => p.1 == k) = false →
      st'.records = st.records ++
        [(⟨st.homeId, k, st.nextCalendarId, rrec.lastSyncToken⟩ :
          CalendarMigrationRecord)] ∧
      lss' = lss ++ [(k, (⟨st.homeId, k, st.nextCalendarId, Option.none⟩ :
          CalendarMigrationRecord))]) := by
  unfold syncCalendarModel at h
  by_cases hany : lss.any (fun p => p.1 == k) = true
  · refine ⟨fun _ => ?_, fun hfalse => absurd hany (by simp [hfalse])⟩
    simp only [hany, if_true] at h
    obtain ⟨rec, hrec⟩ := lookup_isSome_of_any lss k hany
    rw [hrec, hr] at h
    simp only [] at h
    have hreck : rec.remoteResourceID = k :=
      hC (k, rec) (lookup_assoc_some_mem lss k rec hrec)
    by_cases htok : rec.lastSyncToken = rrec.lastSyncToken
    · rw [if_neg (by simp [htok])] at h
      obtain heq := Except.ok.inj h
      have hst : updateSyncState st rec rrec.lastSyncToken false = st' :=
        congrArg (fun p => p.1) heq
      have hlss : lss = lss' := congrArg (fun p => p.2.1) heq
      refine ⟨?_, hlss.symm⟩
      rw [← hst]
      unfold updateSyncState
      simp only [Bool.false_eq_true, if_false, hreck]
    · rw [if_pos (by simp [htok])] at h
      rcases hf1 : rcals.find? (fun c => c.rid == rec.remoteResourceID) with _ | rc
      · rw [hf1] at h
        cases h
      · rw [hf1] at h
        simp only [] at h
        rcases hf2 : st.calendars.find? (fun c => c.lid == rec.localResourceID) with _ | lc
        · rw [hf2] at h
          cases h
        · rw [hf2] at h
          simp only [] at h
          obtain heq := Except.ok.inj h
          have hst : updateSyncState
              (updateChangedInBatches (some rcals)
                (purgeDeletedInBatches st rec.localResourceID
                  (findObjectsToSync rc.objs lc.objs
                    (rc.changesSince rec.lastSyncToken).1
                    (rc.changesSince rec.lastSyncToken).2).2).1
                rec.localResourceID rec.remoteResourceID
                (findObjectsToSync rc.objs lc.objs
                  (rc.changesSince rec.lastSyncToken).1
                  (rc.changesSince rec.lastSyncToken).2).1).1
              rec rrec.lastSyncToken false = st' :=
            congrArg (fun p => p.1) heq
          have hlss : lss = lss' := congrArg (fun p => p.2.1) heq
          refine ⟨?_, hlss.symm⟩
          rw [← hst]
          unfold updateSyncState
          simp only [Bool.false_eq_true, if_false, hreck]
          rw [updateChangedInBatches_records, purgeDeletedInBatches_records]
  · refine ⟨fun htrue => absurd htrue hany, fun _ => ?_⟩
    rw [if_neg hany] at h
    simp only [] at h
    have hnotin : ∀ p ∈ lss, p.1 ≠ k := by
      intro p hp hpk
      refine hany (List.any_eq_true.mpr ⟨p, hp, by simp [hpk]⟩)
    rw [dictInsert_of_not_mem lss k _ hnotin] at h
    rw [lookup_append_last lss k _ hnotin, hr] at h
    simp only [] at h
    rw [if_pos (by simp; exact fun he => hrtok he.symm)] at h
    rcases hf1 : rcals.find? (fun c => c.rid == k) with _ | rc
    · rw [hf1] at h
      cases h
    · rw [hf1] at h
      simp only [] at h
      rcases hf2 : (st.calendars ++ [(⟨st.nextCalendarId, []⟩ : LocalCalendar)]).find?
          (fun c => c.lid == st.nextCalendarId) with _ | lc
      · exfalso
        have hmem : (⟨st.nextCalendarId, []⟩ : LocalCalendar) ∈
            st.calendars ++ [(⟨st.nextCalendarId, []⟩ : LocalCalendar)] := by simp
        have hnp := List.find?_eq_none.mp hf2 _ hmem
        simp at hnp
      · rw [hf2] at h
        simp only [] at h
        obtain heq := Except.ok.inj h
        have hst := congrArg (fun p : SyncState ×
          List (Nat × CalendarMigrationRecord) × SyncTrace => p.1) heq
        have hlss := congrArg (fun p : SyncState ×
          List (Nat × CalendarMigrationRecord) × SyncTrace => p.2.1) heq
        simp only [] at hst hlss
        refine ⟨?_, hlss.symm⟩
        rw [← hst]
        unfold updateSyncState
        rw [if_pos rfl]
        rw [updateChangedInBatches_records, purgeDeletedInBatches_records]

theorem filter_map_comm {α β : Type} (f : α → β) (p : β → Bool) :
    ∀ l : List α, (l.map f).filter p = (l.filter (fun a => p (f a))).map f := by
  intro l
  induction l with
  | nil => rfl
  | cons x xs ih =>
      rw [List.map_cons, List.filter_cons, List.filter_cons]
      by_cases h : p (f x) = true
      · rw [if_pos h, if_pos h, List.map_cons, ih]
      · rw [if_neg h, if_neg h, ih]

theorem dictInsert_subset [DecidableEq κ] (d : List (κ × β)) (k : κ) (v : β) :
    ∀ q ∈ dictInsert d k v, q ∈ d ∨ q = (k, v) := by
  intro q hq
  unfold dictInsert at hq
  by_cases h : d.any (fun p => p.1 = k) = true
  · rw [if_pos h] at hq
    obtain ⟨p, hp, he⟩ := List.mem_map.mp hq
    by_cases hk : p.1 = k
    · rw [if_pos hk] at he
      exact Or.inr he.symm
    · rw [if_neg hk] at he
      exact Or.inl (he ▸ hp)
  · rw [if_neg h] at hq
    rcases List.mem_append.mp hq with h1 | h2
    · exact Or.inl h1
    · exact Or.inr (List.mem_singleton.mp h2)

theorem foldl_dictInsert_mem [DecidableEq κ] :
    ∀ (ps acc : List (κ × β)),
      ∀ q ∈ ps.foldl (fun d p => dictInsert d p.1 p.2) acc, q ∈ acc ∨ q ∈ ps := by
  intro ps
  induction ps with
  | nil => intro acc q hq; exact Or.inl hq
  | cons p ps ih =>
      intro acc q hq
      rw [List.foldl_cons] at hq
      rcases ih (dictInsert acc p.1 p.2) q hq with h1 | h2
      · rcases dictInsert_subset acc p.1 p.2 q h1 with h3 | h3
        · exact Or.inl h3
        · right
          rw [h3]
          exact List.mem_cons_self _ _
      · exact Or.inr (List.mem_cons_of_mem _ h2)

/-- Every entry of a `pydict` is one of the input pairs. -/
theorem mem_pydict_subset [DecidableEq κ] (ps : List (κ × β)) :
    ∀ q ∈ pydict ps, q ∈ ps := by
  intro q hq
  rcases foldl_dictInsert_mem ps [] q hq with h | h
  · simp at h
  · exact h

/-- The loop of `purgeLocal`, specified. Starting from a state whose in-memory
dict pairs exactly the stored records, with unique remote ids, unique local
ids and every record's calendar present, folding the purge step over a list
of stale dict entries with distinct keys removes exactly the records whose
remote id is a stale key and keeps the dict paired with the records. -/
theorem purge_fold_spec :
    ∀ (sl : List (Nat × CalendarMigrationRecord)) (st : SyncState)
      (lss : List (Nat × CalendarMigrationRecord)) (w : Nat),
      lss = st.records.map (fun r => (r.remoteResourceID, r)) →
      (st.records.map CalendarMigrationRecord.remoteResourceID).Nodup →
      (st.records.map CalendarMigrationRecord.localResourceID).Nodup →
      (∀ r ∈ st.records, ∃ c ∈ st.calendars, c.lid = r.localResourceID) →
      (∀ p ∈ sl, p ∈ lss) →
      (sl.map Prod.fst).Nodup →
      ∃ st' w',
        sl.foldl (fun acc p =>
            let (st1, lss1, w) := acc
            let (st2, w2) := purgeCalendarLocally st1 p.2.localResourceID
            (st2, lss1.filter (fun q => !(q.1 == p.1)), w + w2)) (st, lss, w) =
          (st', st'.records.map (fun r => (r.remoteResourceID, r)), w') ∧
        st'.records = st.records.filter
          (fun r => !(sl.any (fun p => p.1 == r.remoteResourceID))) := by
  intro sl
  induction sl with
  | nil =>
      intro st lss w hpair hG1 hG2 hG4 hin hnd
      refine ⟨st, w, ?_, ?_⟩
      · rw [List.foldl_nil, hpair]
      · simp
  | cons p sl ih =>
      intro st lss w hpair hG1 hG2 hG4 hin hnd
      have hp : p ∈ lss := hin p (List.mem_cons_self _ _)
      rw [hpair] at hp
      obtain ⟨r0, hr0, hpe⟩ := List.mem_map.mp hp
      obtain ⟨p1, p2⟩ := p
      injection hpe with hpe1 hpe2
      subst hpe1
      subst hpe2
      obtain ⟨c0, hc0, hc0l⟩ := hG4 r0 hr0
      rw [List.foldl_cons]
      dsimp only
      rcases hfind : st.calendars.find? (fun c => c.lid == r0.localResourceID)
          with _ | c
      · exfalso
        have := List.find?_eq_none.mp hfind c0 hc0
        simp [hc0l] at this
      · unfold purgeCalendarLocally
        rw [hfind]
        dsimp only
        have hloc_iff : ∀ r ∈ st.records,
            (!(r.localResourceID == r0.localResourceID)) =
              (!(r.remoteResourceID == r0.remoteResourceID)) := by
          intro r hr
          by_cases hl : r.localResourceID = r0.localResourceID
          · have : r = r0 := List.inj_on_of_nodup_map hG2 hr hr0 hl
            subst this
            simp
          · have hrm : ¬ r.remoteResourceID = r0.remoteResourceID := by
              intro hre
              exact hl (congrArg CalendarMigrationRecord.localResourceID
                (List.inj_on_of_nodup_map hG1 hr hr0 hre))
            simp [hl, hrm]
        have hrecs_mid : st.records.filter
              (fun r => !(r.localResourceID == r0.localResourceID)) =
            st.records.filter
              (fun r => !(r.remoteResourceID == r0.remoteResourceID)) :=
          List.filter_congr hloc_iff
        have hlss_mid : lss.filter (fun q => !(q.1 == r0.remoteResourceID)) =
            (st.records.filter
              (fun r => !(r.localResourceID == r0.localResourceID))).map
              (fun r => (r.remoteResourceID, r)) := by
          rw [hpair, filter_map_comm, hrecs_mid]
        obtain ⟨st', w', hfold, hrecs⟩ := ih
          { st with
              calendars := st.calendars.filter
                (fun d => !(d.lid == r0.localResourceID)),
              records := st.records.filter
                (fun r => !(r.localResourceID == r0.localResourceID)),
              objMigRecords := st.objMigRecords.filter
                (fun q => !(c.objs.any (fun o => o.oid == q.2))) }
          (lss.filter (fun q => !(q.1 == r0.remoteResourceID)))
          (w + c.objs.length)
          hlss_mid
          (List.Nodup.sublist
            (List.Sublist.map _ (List.filter_sublist _)) hG1)
          (List.Nodup.sublist
            (List.Sublist.map _ (List.filter_sublist _)) hG2)
          (by
            intro r hr
            rw [hrecs_mid] at hr
            obtain ⟨hrm, hrp⟩ := List.mem_filter.mp hr
            obtain ⟨cr, hcr, hcrl⟩ := hG4 r hrm
            refine ⟨cr, List.mem_filter.mpr ⟨hcr, ?_⟩, hcrl⟩
            have hne : ¬ r.remoteResourceID = r0.remoteResourceID := by
              simpa using hrp
            have hlne : ¬ r.localResourceID = r0.localResourceID := by
              intro hl
              exact hne (congrArg CalendarMigrationRecord.remoteResourceID
                (List.inj_on_of_nodup_map hG2 hrm hr0 hl))
            simp [hcrl, hlne])
          (by
            intro q hq
            refine List.mem_filter.mpr
              ⟨hin q (List.mem_cons_of_mem _ hq), ?_⟩
            have hne : q.1 ≠ r0.remoteResourceID := by
              intro he
              rw [List.map_cons, List.nodup_cons] at hnd
              have hm : q.1 ∈ sl.map Prod.fst := List.mem_map_of_mem Prod.fst hq
              rw [he] at hm
              exact hnd.1 hm
            simp [hne])
          (by
            rw [List.map_cons, List.nodup_cons] at hnd
            exact hnd.2)
        refine ⟨st', w', hfold, ?_⟩
        rw [hrecs]
        dsimp only
        rw [hrecs_mid, List.filter_filter]
        refine List.filter_congr ?_
        intro r hr
        simp only [List.any_cons, Bool.not_or]
        by_cases he : r0.remoteResourceID = r.remoteResourceID
        · simp [he]
        · have he2 : ¬ r.remoteResourceID = r0.remoteResourceID :=
            fun h => he h.symm
          have hb : (r.remoteResourceID == r0.remoteResourceID) = false := by
            simp [he2]
          have hb2 : (r0.remoteResourceID == r.remoteResourceID) = false := by
            simp [he]
          rw [hb, hb2]
          simp

/-- `CrossPodHomeSync.purgeLocal`, specified: under the store invariants
(unique remote ids, unique local ids, every record's calendar present) and
with the in-memory dict pairing the stored records, it removes exactly the
records whose remote id no longer appears in the remote state and returns
the dict still paired with the remaining records. -/
theorem purgeLocal_spec (st : SyncState)
    (lss rss : List (Nat × CalendarMigrationRecord))
    (hpair : lss = st.records.map (fun r => (r.remoteResourceID, r)))
    (hG1 : (st.records.map CalendarMigrationRecord.remoteResourceID).Nodup)
    (hG2 : (st.records.map CalendarMigrationRecord.localResourceID).Nodup)
    (hG4 : ∀ r ∈ st.records, ∃ c ∈ st.calendars, c.lid = r.localResourceID) :
    ∃ st' w',
      purgeLocal st lss rss =
        (st', st'.records.map (fun r => (r.remoteResourceID, r)), w') ∧
      st'.records = st.records.filter
        (fun r => rss.any (fun q => q.1 == r.remoteResourceID)) := by
  have hkeys : lss.map Prod.fst =
      st.records.map CalendarMigrationRecord.remoteResourceID := by
    rw [hpair, List.map_map]
    rfl
  obtain ⟨st', w', hfold, hrecs⟩ := purge_fold_spec
    (lss.filter (fun p => !(rss.any (fun q => q.1 == p.1)))) st lss 0 hpair
    hG1 hG2 hG4
    (fun p hp => List.mem_of_mem_filter hp)
    (List.Nodup.sublist
      (List.Sublist.map Prod.fst (List.filter_sublist lss)) (hkeys ▸ hG1))
  refine ⟨st', w', ?_, ?_⟩
  · unfold purgeLocal
    exact hfold
  · rw [hrecs]
    refine List.filter_congr ?_
    intro r hr
    by_cases hA : rss.any (fun q => q.1 == r.remoteResourceID) = true
    · have hnone : (lss.filter (fun p => !(rss.any (fun q => q.1 == p.1)))).any
          (fun p => p.1 == r.remoteResourceID) = false := by
        rw [List.any_eq_false]
        intro p hp
        obtain ⟨hpl, hps⟩ := List.mem_filter.mp hp
        intro hpk
        rw [eq_of_beq hpk, hA] at hps
        simp at hps
      rw [hnone, hA]
      rfl
    · have hA2 : rss.any (fun q => q.1 == r.remoteResourceID) = false :=
        Bool.eq_false_iff.mpr hA
      have hmem : (r.remoteResourceID, r) ∈
          lss.filter (fun p => !(rss.any (fun q => q.1 == p.1))) := by
        refine List.mem_filter.mpr ⟨?_, by simp [hA2]⟩
        rw [hpair]
        exact List.mem_map_of_mem _ hr
      have hany : (lss.filter (fun p => !(rss.any (fun q => q.1 == p.1)))).any
          (fun p => p.1 == r.remoteResourceID) = true :=
        List.any_eq_true.mpr ⟨(r.remoteResourceID, r), hmem, by simp⟩
      rw [hany, hA2]
      rfl

theorem map_congr_mem {α β : Type} (l : List α) (f g : α → β)
    (h : ∀ x ∈ l, f x = g x) : l.map f = l.map g := by
  induction l with
  | nil => rfl
  | cons x xs ih =>
      rw [List.map_cons, List.map_cons, h x (List.mem_cons_self _ _),
        ih (fun y hy => h y (List.mem_cons_of_mem _ hy))]

/-- Invariants of `syncCalendarList`'s loop over the remote ids. Starting from
a state with unique remote ids, dict keys matching the stored records, dict
values keyed consistently, and every record backed by a remote entry, a
successful fold keeps unique remote ids, keeps every record remotely backed,
records the remote token for every processed id, and preserves every
already-recorded remote token. -/
theorem pass1_fold (rcals : List RemoteCalendar)
    (rss : List (Nat × CalendarMigrationRecord))
    (hrss : ∀ p ∈ rss, p.2.lastSyncToken ≠ Option.none) :
    ∀ (keys : List Nat) (st : SyncState)
      (lss : List (Nat × CalendarMigrationRecord)) (tr : SyncTrace)
      (out : SyncState × List (Nat × CalendarMigrationRecord) × SyncTrace),
      (∀ k ∈ keys, ∃ rrec, List.lookup k rss = some rrec) →
      (st.records.map CalendarMigrationRecord.remoteResourceID).Nodup →
      lss.map Prod.fst = st.records.map CalendarMigrationRecord.remoteResourceID →
      (∀ p ∈ lss, p.2.remoteResourceID = p.1) →
      (∀ r ∈ st.records, ∃ q ∈ rss, q.1 = r.remoteResourceID) →
      keys.foldlM (syncListStep rcals rss) (st, lss, tr) = .ok out →
      (out.1.records.map CalendarMigrationRecord.remoteResourceID).Nodup ∧
      (∀ r ∈ out.1.records, ∃ q ∈ rss, q.1 = r.remoteResourceID) ∧
      (∀ k ∈ keys, ∃ r ∈ out.1.records, r.remoteResourceID = k ∧
        ∃ rrec, List.lookup k rss = some rrec ∧
          r.lastSyncToken = rrec.lastSyncToken) ∧
      (∀ k, (∃ r ∈ st.records, r.remoteResourceID = k ∧
          ∃ rrec, List.lookup k rss = some rrec ∧
            r.lastSyncToken = rrec.lastSyncToken) →
        ∃ r ∈ out.1.records, r.remoteResourceID = k ∧
          ∃ rrec, List.lookup k rss = some rrec ∧
            r.lastSyncToken = rrec.lastSyncToken) := by
  intro keys
  induction keys with
  | nil =>
      intro st lss tr out hk hG1 hkeys hC hsub hfold
      rw [List.foldlM_nil] at hfold
      have hout : (Except.ok (st, lss, tr) :
          Except String (SyncState × List (Nat × CalendarMigrationRecord) ×
            SyncTrace)) = .ok out := hfold
      obtain rfl := Except.ok.inj hout
      exact ⟨hG1, hsub, fun k hkm => absurd hkm (List.not_mem_nil k),
        fun k hE => hE⟩
  | cons k0 ks ih =>
      intro st lss tr out hk hG1 hkeys hC hsub hfold
      rw [List.foldlM_cons] at hfold
      obtain ⟨rrec0, hr0⟩ := hk k0 (List.mem_cons_self _ _)
      have hrtok0 : rrec0.lastSyncToken ≠ Option.none :=
        hrss (k0, rrec0) (lookup_assoc_some_mem rss k0 rrec0 hr0)
      rcases hstep : syncCalendarModel rcals k0 st lss rss with e | res
      · have hstep0 : syncListStep rcals rss (st, lss, tr) k0 = .error e := by
          unfold syncListStep
          rw [hstep]
          rfl
        rw [hstep0] at hfold
        exact absurd hfold (by intro hcon; cases hcon)
      · obtain ⟨st1, lss1, tr1⟩ := res
        have hstep0 : syncListStep rcals rss (st, lss, tr) k0 =
            .ok (st1, lss1,
              ⟨tr.objectWrites + tr1.objectWrites,
               tr.sinceTokenCalls + tr1.sinceTokenCalls⟩) := by
          unfold syncListStep
          rw [hstep]
          rfl
        rw [hstep0] at hfold
        have hfold2 : ks.foldlM (syncListStep rcals rss)
            (st1, lss1,
              (⟨tr.objectWrites + tr1.objectWrites,
               tr.sinceTokenCalls + tr1.sinceTokenCalls⟩ : SyncTrace)) =
            .ok out := hfold
        obtain ⟨hshT, hshF⟩ := syncCalendarModel_ok_shape rcals k0 st lss rss
          rrec0 hC hr0 hrtok0 st1 lss1 tr1 hstep
        have hkks : ∀ k ∈ ks, ∃ rrec, List.lookup k rss = some rrec :=
          fun k hkm => hk k (List.mem_cons_of_mem _ hkm)
        by_cases hany : lss.any (fun p => p.1 == k0) = true
        · -- the id was already mapped: token update in place
          obtain ⟨hrec1, hlss1⟩ := hshT hany
          rw [hlss1] at hfold2
          have hre : st1.records.map CalendarMigrationRecord.remoteResourceID =
              st.records.map CalendarMigrationRecord.remoteResourceID := by
            rw [hrec1, List.map_map]
            refine map_congr_mem _ _ _ ?_
            intro r _
            by_cases hb : (r.remoteResourceID == k0) = true
            · simp only [Function.comp_apply, hb, if_true]
            · simp only [Function.comp_apply, hb, Bool.false_eq_true, if_false]
          have hG1m : (st1.records.map
              CalendarMigrationRecord.remoteResourceID).Nodup := by
            rw [hre]; exact hG1
          have hkeysm : lss.map Prod.fst =
              st1.records.map CalendarMigrationRecord.remoteResourceID := by
            rw [hre]; exact hkeys
          have hsubm : ∀ r ∈ st1.records, ∃ q ∈ rss,
              q.1 = r.remoteResourceID := by
            intro r' hr'
            rw [hrec1] at hr'
            obtain ⟨r, hrm, hre2⟩ := List.mem_map.mp hr'
            have hrr : r'.remoteResourceID = r.remoteResourceID := by
              rw [← hre2]
              by_cases hb : (r.remoteResourceID == k0) = true
              · simp only [hb, if_true]
              · simp only [hb, Bool.false_eq_true, if_false]
            obtain ⟨q, hq, hqk⟩ := hsub r hrm
            exact ⟨q, hq, by rw [hqk, hrr]⟩
          obtain ⟨oG1, osub, oE1, opres⟩ := ih st1 lss
            ⟨tr.objectWrites + tr1.objectWrites,
             tr.sinceTokenCalls + tr1.sinceTokenCalls⟩ out
            hkks hG1m hkeysm hC hsubm hfold2
          have hE1mid : ∃ r ∈ st1.records, r.remoteResourceID = k0 ∧
              ∃ rrec, List.lookup k0 rss = some rrec ∧
                r.lastSyncToken = rrec.lastSyncToken := by
            have hk0in : k0 ∈ st.records.map
                CalendarMigrationRecord.remoteResourceID := by
              rw [← hkeys]
              obtain ⟨p, hp, hpk⟩ := List.any_eq_true.mp hany
              exact List.mem_map.mpr ⟨p, hp, eq_of_beq hpk⟩
            obtain ⟨r0, hr0m, hr0k⟩ := List.mem_map.mp hk0in
            have hb0 : (r0.remoteResourceID == k0) = true := by simp [hr0k]
            refine ⟨{ r0 with lastSyncToken := rrec0.lastSyncToken }, ?_,
              hr0k, rrec0, hr0, rfl⟩
            rw [hrec1]
            have hm := List.mem_map_of_mem (fun r =>
              if r.remoteResourceID == k0 then
                { r with lastSyncToken := rrec0.lastSyncToken }
              else r) hr0m
            simpa only [hb0, if_true] using hm
          have hpresmid : ∀ k,
              (∃ r ∈ st.records, r.remoteResourceID = k ∧
                ∃ rrec, List.lookup k rss = some rrec ∧
                  r.lastSyncToken = rrec.lastSyncToken) →
              (∃ r ∈ st1.records, r.remoteResourceID = k ∧
                ∃ rrec, List.lookup k rss = some rrec ∧
                  r.lastSyncToken = rrec.lastSyncToken) := by
            intro k hE
            obtain ⟨r, hrm, hrk, rr, hlr, htokr⟩ := hE
            by_cases hb : (r.remoteResourceID == k0) = true
            · have hk0 : k = k0 := by
                rw [← hrk]
                exact eq_of_beq hb
              refine ⟨{ r with lastSyncToken := rrec0.lastSyncToken }, ?_,
                hrk, rrec0, by rw [hk0]; exact hr0, rfl⟩
              rw [hrec1]
              have hm := List.mem_map_of_mem (fun r =>
                if r.remoteResourceID == k0 then
                  { r with lastSyncToken := rrec0.lastSyncToken }
                else r) hrm
              simpa only [hb, if_true] using hm
            · refine ⟨r, ?_, hrk, rr, hlr, htokr⟩
              rw [hrec1]
              have hm := List.mem_map_of_mem (fun r =>
                if r.remoteResourceID == k0 then
                  { r with lastSyncToken := rrec0.lastSyncToken }
                else r) hrm
              simpa only [hb, Bool.false_eq_true, if_false] using hm
          refine ⟨oG1, osub, ?_, fun k hE => opres k (hpresmid k hE)⟩
          intro k hkm
          rcases List.mem_cons.mp hkm with rfl | hkm2
          · exact opres k hE1mid
          · exact oE1 k hkm2
        · -- fresh id: a new record with the remote token is appended
          have hanyf : lss.any (fun p => p.1 == k0) = false :=
            Bool.eq_false_iff.mpr hany
          obtain ⟨hrec1, hlss1⟩ := hshF hanyf
          rw [hlss1] at hfold2
          have hk0notin : k0 ∉ st.records.map
              CalendarMigrationRecord.remoteResourceID := by
            rw [← hkeys]
            intro hm
            obtain ⟨p, hp, hpk⟩ := List.mem_map.mp hm
            have hbp : (p.1 == k0) = true := by
              rw [hpk]
              exact beq_self_eq_true k0
            have hcon : lss.any (fun p => p.1 == k0) = true :=
              List.any_eq_true.mpr ⟨p, hp, hbp⟩
            rw [hanyf] at hcon
            cases hcon
          have hremap : st1.records.map
              CalendarMigrationRecord.remoteResourceID =
              st.records.map CalendarMigrationRecord.remoteResourceID ++ [k0] := by
            rw [hrec1, List.map_append]
            rfl
          have hG1m : (st1.records.map
              CalendarMigrationRecord.remoteResourceID).Nodup := by
            rw [hremap, List.nodup_append]
            exact ⟨hG1, List.nodup_singleton k0,
              fun a ha hb => hk0notin ((List.mem_singleton.mp hb) ▸ ha)⟩
          have hkeysm : (lss ++ [(k0,
              (⟨st.homeId, k0, st.nextCalendarId, Option.none⟩ :
                CalendarMigrationRecord))]).map Prod.fst =
              st1.records.map CalendarMigrationRecord.remoteResourceID := by
            rw [hremap, List.map_append, hkeys]
            rfl
          have hCm : ∀ p ∈ lss ++ [(k0,
              (⟨st.homeId, k0, st.nextCalendarId, Option.none⟩ :
                CalendarMigrationRecord))], p.2.remoteResourceID = p.1 := by
            intro p hp
            rcases List.mem_append.mp hp with h1 | h2
            · exact hC p h1
            · rw [List.mem_singleton.mp h2]
          have hsubm : ∀ r ∈ st1.records, ∃ q ∈ rss,
              q.1 = r.remoteResourceID := by
            intro r' hr'
            rw [hrec1] at hr'
            rcases List.mem_append.mp hr' with h1 | h2
            · exact hsub r' h1
            · rw [List.mem_singleton.mp h2]
              exact ⟨(k0, rrec0), lookup_assoc_some_mem rss k0 rrec0 hr0, rfl⟩
          obtain ⟨oG1, osub, oE1, opres⟩ := ih st1
            (lss ++ [(k0,
              (⟨st.homeId, k0, st.nextCalendarId, Option.none⟩ :
                CalendarMigrationRecord))])
            ⟨tr.objectWrites + tr1.objectWrites,
             tr.sinceTokenCalls + tr1.sinceTokenCalls⟩ out
            hkks hG1m hkeysm hCm hsubm hfold2
          have hE1mid : ∃ r ∈ st1.records, r.remoteResourceID = k0 ∧
              ∃ rrec, List.lookup k0 rss = some rrec ∧
                r.lastSyncToken = rrec.lastSyncToken := by
            refine ⟨⟨st.homeId, k0, st.nextCalendarId, rrec0.lastSyncToken⟩,
              ?_, rfl, rrec0, hr0, rfl⟩
            rw [hrec1]
            exact List.mem_append_right _ (List.mem_singleton.mpr rfl)
          have hpresmid : ∀ k,
              (∃ r ∈ st.records, r.remoteResourceID = k ∧
                ∃ rrec, List.lookup k rss = some rrec ∧
                  r.lastSyncToken = rrec.lastSyncToken) →
              (∃ r ∈ st1.records, r.remoteResourceID = k ∧
                ∃ rrec, List.lookup k rss = some rrec ∧
                  r.lastSyncToken = rrec.lastSyncToken) := by
            intro k hE
            obtain ⟨r, hrm, hrk, rr, hlr, htokr⟩ := hE
            refine ⟨r, ?_, hrk, rr, hlr, htokr⟩
            rw [hrec1]
            exact List.mem_append_left _ hrm
          refine ⟨oG1, osub, ?_, fun k hE => opres k (hpresmid k hE)⟩
          intro k hkm
          rcases List.mem_cons.mp hkm with rfl | hkm2
          · exact opres k hE1mid
          · exact oE1 k hkm2

/-- Second-pass behaviour of the loop: when the dict pairs the stored records,
remote ids are unique, and every processed id already has the remote token
recorded, every iteration takes the token-equality skip branch and the fold
returns its input unchanged with a zero trace contribution. -/
theorem pass2_fold (rcals : List RemoteCalendar)
    (rss : List (Nat × CalendarMigrationRecord)) :
    ∀ (keys : List Nat) (st : SyncState)
      (lss : List (Nat × CalendarMigrationRecord)) (tr : SyncTrace),
      (st.records.map CalendarMigrationRecord.remoteResourceID).Nodup →
      lss = st.records.map (fun r => (r.remoteResourceID, r)) →
      (∀ k ∈ keys, ∃ r ∈ st.records, r.remoteResourceID = k ∧
        ∃ rrec, List.lookup k rss = some rrec ∧
          r.lastSyncToken = rrec.lastSyncToken) →
      keys.foldlM (syncListStep rcals rss) (st, lss, tr) = .ok (st, lss, tr) := by
  intro keys
  induction keys with
  | nil =>
      intro st lss tr _ _ _
      rw [List.foldlM_nil]
      rfl
  | cons k0 ks ih =>
      intro st lss tr hG1 hpair hE1
      obtain ⟨r0, hr0m, hr0k, rrec0, hlr0, htok0⟩ :=
        hE1 k0 (List.mem_cons_self _ _)
      have hkeys : lss.map Prod.fst =
          st.records.map CalendarMigrationRecord.remoteResourceID := by
        rw [hpair, List.map_map]
        rfl
      have hlk : List.lookup k0 lss = some r0 := by
        apply lookup_assoc_of_mem_nodup lss (by rw [hkeys]; exact hG1)
        rw [hpair]
        have hm := List.mem_map_of_mem
          (fun r => (r.remoteResourceID, r)) hr0m
        dsimp only at hm
        rwa [hr0k] at hm
      have hskip := syncCalendar_skip rcals k0 st lss rss r0 rrec0 hlk hlr0 htok0
      have hupd : updateSyncState st r0 rrec0.lastSyncToken false = st := by
        apply updateSyncState_same_token
        intro r hr hre
        have heq : r = r0 := List.inj_on_of_nodup_map hG1 hr hr0m hre
        rw [heq, htok0]
      have hstep0 : syncListStep rcals rss (st, lss, tr) k0 =
          .ok (st, lss, tr) := by
        unfold syncListStep
        rw [hskip, hupd]
        show (Except.ok (st, lss,
          SyncTrace.mk (tr.objectWrites + 0) (tr.sinceTokenCalls + 0)) :
            Except String (SyncState × List (Nat × CalendarMigrationRecord) ×
              SyncTrace)) = .ok (st, lss, tr)
        rw [Nat.add_zero, Nat.add_zero]
      rw [List.foldlM_cons, hstep0]
      have hrest := ih st lss tr hG1 hpair
        (fun k hkm => hE1 k (List.mem_cons_of_mem _ hkm))
      exact hrest

/-- An immediate re-run of `syncCalendarList` over the same remote home is a
no-op: with all remote tokens already recorded, unique remote ids and every
record remotely backed, it purges nothing, takes the skip branch for every
remote id, leaves the state unchanged, and reports zero object writes and
zero `resourceNamesSinceToken` calls. -/
theorem syncCalendarList_second_pass (hid : Nat) (rcals : List RemoteCalendar)
    (st : SyncState)
    (hG1 : (st.records.map CalendarMigrationRecord.remoteResourceID).Nodup)
    (hsub : ∀ r ∈ st.records, ∃ q ∈ getCalendarSyncListSome hid rcals,
      q.1 = r.remoteResourceID)
    (hE1 : ∀ k ∈ (getCalendarSyncListSome hid rcals).map Prod.fst,
      ∃ r ∈ st.records, r.remoteResourceID = k ∧
        ∃ rrec, List.lookup k (getCalendarSyncListSome hid rcals) = some rrec ∧
          r.lastSyncToken = rrec.lastSyncToken) :
    syncCalendarListModel (some (hid, rcals)) st = .ok (st, ⟨0, 0⟩) := by
  have hlss : getSyncState st =
      st.records.map (fun r => (r.remoteResourceID, r)) := by
    unfold getSyncState
    apply pydict_of_nodup_keys
    rw [List.map_map]
    exact hG1
  have hstale : (st.records.map (fun r => (r.remoteResourceID, r))).filter
      (fun p => !((getCalendarSyncListSome hid rcals).any
        (fun q => q.1 == p.1))) = [] := by
    rw [List.filter_eq_nil_iff]
    intro p hp
    obtain ⟨r, hrm, hre⟩ := List.mem_map.mp hp
    obtain ⟨q, hq, hqk⟩ := hsub r hrm
    have hbq : (q.1 == p.1) = true := by
      rw [hqk, ← hre]
      exact beq_self_eq_true r.remoteResourceID
    have hany : (getCalendarSyncListSome hid rcals).any
        (fun q => q.1 == p.1) = true :=
      List.any_eq_true.mpr ⟨q, hq, hbq⟩
    simp [hany]
  have hpurge : purgeLocal st (getSyncState st)
      (getCalendarSyncListSome hid rcals) = (st, getSyncState st, 0) := by
    unfold purgeLocal
    rw [hlss, hstale, List.foldl_nil]
  have hfold := pass2_fold rcals (getCalendarSyncListSome hid rcals)
    ((getCalendarSyncListSome hid rcals).map Prod.fst) st
    (st.records.map (fun r => (r.remoteResourceID, r))) ⟨0, 0⟩
    hG1 rfl hE1
  unfold syncCalendarListModel
  simp only []
  rw [hpurge]
  simp only []
  rw [hlss, hfold]

/-- After a successful `syncCalendarList` pass from a store with unique remote
ids, unique local ids and every record's calendar present, the resulting
store satisfies the second-pass preconditions: unique remote ids, every
record backed by an owned remote calendar, and the remote token recorded for
every remote id. -/
theorem syncCalendarList_first_pass (hid : Nat) (rcals : List RemoteCalendar)
    (st0 st1 : SyncState) (tr1 : SyncTrace)
    (hG1 : (st0.records.map CalendarMigrationRecord.remoteResourceID).Nodup)
    (hG2 : (st0.records.map CalendarMigrationRecord.localResourceID).Nodup)
    (hG4 : ∀ r ∈ st0.records, ∃ c ∈ st0.calendars, c.lid = r.localResourceID)
    (hrun : syncCalendarListModel (some (hid, rcals)) st0 = .ok (st1, tr1)) :
    (st1.records.map CalendarMigrationRecord.remoteResourceID).Nodup ∧
    (∀ r ∈ st1.records, ∃ q ∈ getCalendarSyncListSome hid rcals,
      q.1 = r.remoteResourceID) ∧
    (∀ k ∈ (getCalendarSyncListSome hid rcals).map Prod.fst,
      ∃ r ∈ st1.records, r.remoteResourceID = k ∧
        ∃ rrec, List.lookup k (getCalendarSyncListSome hid rcals) = some rrec ∧
          r.lastSyncToken = rrec.lastSyncToken) := by
  have hrss : ∀ p ∈ getCalendarSyncListSome hid rcals,
      p.2.lastSyncToken ≠ Option.none := by
    intro p hp
    have hpm := mem_pydict_subset _ p hp
    obtain ⟨c, _, hce⟩ := List.mem_map.mp hpm
    rw [← hce]
    intro hcon
    cases hcon
  have hlss0 : getSyncState st0 =
      st0.records.map (fun r => (r.remoteResourceID, r)) := by
    unfold getSyncState
    apply pydict_of_nodup_keys
    rw [List.map_map]
    exact hG1
  obtain ⟨stp, wp, hfoldp, hrecsp⟩ := purgeLocal_spec st0 (getSyncState st0)
    (getCalendarSyncListSome hid rcals) hlss0 hG1 hG2 hG4
  unfold syncCalendarListModel at hrun
  simp only [] at hrun
  rw [hfoldp] at hrun
  dsimp only at hrun
  rcases hfold : ((getCalendarSyncListSome hid rcals).map Prod.fst).foldlM
      (syncListStep rcals (getCalendarSyncListSome hid rcals))
      (stp, stp.records.map (fun r => (r.remoteResourceID, r)), ⟨wp, 0⟩)
      with e | res
  · rw [hfold] at hrun
    cases hrun
  · rw [hfold] at hrun
    dsimp only at hrun
    obtain heq := Except.ok.inj hrun
    have hst1 : res.1 = st1 := congrArg Prod.fst heq
    have hG1p : (stp.records.map
        CalendarMigrationRecord.remoteResourceID).Nodup := by
      refine List.Nodup.sublist ?_ hG1
      rw [hrecsp]
      exact List.Sublist.map _ (List.filter_sublist _)
    have hkeysp : (stp.records.map (fun r => (r.remoteResourceID, r))).map
        Prod.fst = stp.records.map CalendarMigrationRecord.remoteResourceID := by
      rw [List.map_map]
      rfl
    have hCp : ∀ p ∈ stp.records.map (fun r => (r.remoteResourceID, r)),
        p.2.remoteResourceID = p.1 := by
      intro p hp
      obtain ⟨r, _, he⟩ := List.mem_map.mp hp
      rw [← he]
    have hsubp : ∀ r ∈ stp.records, ∃ q ∈ getCalendarSyncListSome hid rcals,
        q.1 = r.remoteResourceID := by
      intro r hr
      rw [hrecsp] at hr
      obtain ⟨hrm, hrp⟩ := List.mem_filter.mp hr
      obtain ⟨q, hq, hqb⟩ := List.any_eq_true.mp hrp
      exact ⟨q, hq, eq_of_beq hqb⟩
    have hkex : ∀ k ∈ (getCalendarSyncListSome hid rcals).map Prod.fst,
        ∃ rrec, List.lookup k (getCalendarSyncListSome hid rcals) =
          some rrec := by
      intro k hk
      obtain ⟨p, hp, hpk⟩ := List.mem_map.mp hk
      apply lookup_isSome_of_any
      refine List.any_eq_true.mpr ⟨p, hp, ?_⟩
      rw [hpk]
      exact beq_self_eq_true k
    obtain ⟨oG1, osub, oE1, _⟩ := pass1_fold rcals
      (getCalendarSyncListSome hid rcals) hrss
      ((getCalendarSyncListSome hid rcals).map Prod.fst) stp
      (stp.records.map (fun r => (r.remoteResourceID, r))) ⟨wp, 0⟩ res
      hkex hG1p hkeysp hCp hsubp hfold
    rw [hst1] at oG1 osub oE1
    exact ⟨oG1, osub, oE1⟩

/-- C4: for a calendar whose stored sync token equals the current remote
token, `syncCalendar` skips metadata and object sync entirely — it makes zero
`resourceNamesSinceToken` calls and zero object writes, reducing to
`updateSyncState` on an unchanged dict and state; consequently, after a
successful `syncCalendarList` pass from a store with unique remote ids,
unique local calendar ids and every record's calendar present, an immediate
second pass over the unchanged remote home succeeds, leaves the store
unchanged, and performs zero object writes and zero `resourceNamesSinceToken`
calls. -/
theorem C4_token_skip_second_pass_noop :
    (∀ (rcals : List RemoteCalendar) (remoteID : Nat) (st : SyncState)
        (lss rss : List (Nat × CalendarMigrationRecord))
        (rec rrec : CalendarMigrationRecord),
      List.lookup remoteID lss = some rec →
      List.lookup remoteID rss = some rrec →
      rec.lastSyncToken = rrec.lastSyncToken →
      syncCalendarModel rcals remoteID st lss rss =
        .ok (updateSyncState st rec rrec.lastSyncToken false, lss, ⟨0, 0⟩)) ∧
    (∀ (hid : Nat) (rcals : List RemoteCalendar) (st0 st1 : SyncState)
        (tr1 : SyncTrace),
      (st0.records.map CalendarMigrationRecord.remoteResourceID).Nodup →
      (st0.records.map CalendarMigrationRecord.localResourceID).Nodup →
      (∀ r ∈ st0.records, ∃ c ∈ st0.calendars, c.lid = r.localResourceID) →
      syncCalendarListModel (some (hid, rcals)) st0 = .ok (st1, tr1) →
      syncCalendarListModel (some (hid, rcals)) st1 = .ok (st1, ⟨0, 0⟩)) := by
  constructor
  · intro rcals remoteID st lss rss rec rrec hl hr htok
    exact syncCalendar_skip rcals remoteID st lss rss rec rrec hl hr htok
  · intro hid rcals st0 st1 tr1 hG1 hG2 hG4 hrun
    obtain ⟨oG1, osub, oE1⟩ :=
      syncCalendarList_first_pass hid rcals st0 st1 tr1 hG1 hG2 hG4 hrun
    exact syncCalendarList_second_pass hid rcals st1 oG1 osub oE1

/-- C4 witness: the skip branch at a concrete state with matching tokens, and
a concrete second pass over a one-calendar remote home whose token is already
recorded, which leaves the store unchanged with a zero trace. -/
theorem C4_token_skip_second_pass_noop_witness :
    syncCalendarModel [] 5 (⟨1, [], [], [], 0, 0⟩ : SyncState)
      [(5, (⟨1, 5, 7, some "T"⟩ : CalendarMigrationRecord))]
      [(5, (⟨1, 5, 7, some "T"⟩ : CalendarMigrationRecord))] =
      .ok (updateSyncState ⟨1, [], [], [], 0, 0⟩ ⟨1, 5, 7, some "T"⟩
        (some "T") false, [(5, ⟨1, 5, 7, some "T"⟩)], ⟨0, 0⟩) ∧
    syncCalendarListModel
      (some (99, [⟨10, true, "A", [], fun _ => ([], [])⟩]))
      (⟨99, [⟨99, 10, 100, some "A"⟩], [⟨100, []⟩], [], 101, 1000⟩ : SyncState) =
      .ok (⟨99, [⟨99, 10, 100, some "A"⟩], [⟨100, []⟩], [], 101, 1000⟩,
        ⟨0, 0⟩) := by
  constructor
  · exact C4_token_skip_second_pass_noop.1 [] 5 ⟨1, [], [], [], 0, 0⟩
      [(5, ⟨1, 5, 7, some "T"⟩)] [(5, ⟨1, 5, 7, some "T"⟩)]
      ⟨1, 5, 7, some "T"⟩ ⟨1, 5, 7, some "T"⟩ rfl rfl rfl
  · exact C4_token_skip_second_pass_noop.2 99
      [⟨10, true, "A", [], fun _ => ([], [])⟩]
      ⟨99, [⟨99, 10, 100, some "A"⟩], [⟨100, []⟩], [], 101, 1000⟩
      ⟨99, [⟨99, 10, 100, some "A"⟩], [⟨100, []⟩], [], 101, 1000⟩
      ⟨0, 0⟩ (by decide) (by decide)
      (by
        intro r hr
        rw [List.mem_singleton.mp hr]
        exact ⟨⟨100, []⟩, List.mem_singleton.mpr rfl, rfl⟩)
      rfl

/-- C2 (counterexample): when the conduit returns null for the remote home's
resource id, `syncAttachmentTable` — one of the steps the claim covers — does
not complete as a no-op without error: it dereferences the `None` proxy and
raises, so its result is an error, not a success. -/
theorem C2_counterexample :
    syncAttachmentTable Option.none [] [] 0 =
      .error "AttributeError: NoneType object has no attribute getAllAttachments" ∧
    (syncAttachmentTable Option.none [] [] 0).isOk = false := by
  exact ⟨rfl, rfl⟩

/-- C2 (amended): only `getCalendarSyncList` guards the null proxy, returning
`None` and doing nothing; `syncAttachmentTable`, `getAttachmentLinks` and
`updateBatch` do not check and raise `AttributeError` on the null proxy. Run
through their self-created transactions, the wrapper aborts and converts the
exception to a logged failure value, so local state is unchanged but the step
errors rather than completing as a no-op. -/
theorem C2_null_remote_home_amended (lattachments : List Attachment)
    (records : List AttachmentMigrationRecord) (nextAttachmentId : Nat)
    (st : SyncState) (localID remoteID : Nat) (names : List String)
    (diruid : String) (freshTxn : Txn) :
    getCalendarSyncList Option.none = Option.none ∧
    syncAttachmentTable Option.none lattachments records nextAttachmentId =
      .error "AttributeError: NoneType object has no attribute getAllAttachments" ∧
    getAttachmentLinksStep Option.none =
      .error "AttributeError: NoneType object has no attribute getAttachmentLinks" ∧
    applyUpdateBatch Option.none st localID remoteID names =
      .error "AttributeError: NoneType object has no attribute childWithID" ∧
    inTransactionWrapper "syncAttachmentTable" diruid freshTxn
        (fun _ => syncAttachmentTable Option.none lattachments records nextAttachmentId)
        Option.none =
      (.failure "AttributeError: NoneType object has no attribute getAllAttachments",
       { created := some (label diruid "syncAttachmentTable"), committed := false,
         aborted := true,
         loggedError := some (label diruid "syncAttachmentTable") }) := by
  refine ⟨rfl, rfl, rfl, rfl, ?_⟩
  exact inTransactionWrapper_none_error _ _ _ _ _ rfl

/-- Witness for C5: one changed attachment (md5 differs) is marked for blob
transfer with its metadata copied, at a concrete attachment table. -/
theorem C5_syncAttachmentTable_witness :
    ∃ dataIds removed actions,
      syncAttachmentTable (some [⟨7, "z"⟩, ⟨8, "w"⟩]) [⟨200, "z0"⟩]
          [⟨1, 7, 200⟩] 500 = .ok (dataIds, removed, actions) ∧
      AttachmentAction.copyRemote 200 7 ∈ actions ∧ (200 : Nat) ∈ dataIds := by
  obtain ⟨dataIds, removed, actions, hres, hrem, hrloop, hadd, hupd⟩ :=
    C5_syncAttachmentTable [⟨7, "z"⟩, ⟨8, "w"⟩] [⟨200, "z0"⟩] [⟨1, 7, 200⟩] 500
      (by decide) (by decide) (by decide) (by decide) (by decide)
  have h := hupd ⟨1, 7, 200⟩ (by decide) ⟨7, "z"⟩ (by decide) rfl
    ⟨200, "z0"⟩ (by decide) rfl
  obtain ⟨hcopy, hdata⟩ := h.1 (by decide)
  exact ⟨dataIds, removed, actions, hres, hcopy, hdata⟩

/-- C10: `makeAttachmentLinks` succeeds exactly when every remote link's
attachment id and calendar-object id have entries in the two ID maps; the
wrapper then commits the batch's self-created transaction with all rewritten
links inserted. If any link references an id absent from either map, the
unguarded dictionary lookup raises `KeyError`, the wrapper aborts the
transaction, and no link from the batch is committed. -/
theorem C10_makeAttachmentLinks (diruid : String) (freshTxn : Txn)
    (links : List AttachmentLink) (attMap objMap : List (Nat × Nat)) :
    ((∀ link ∈ links, (∃ p ∈ attMap, p.1 = link.attachmentID) ∧
        (∃ q ∈ objMap, q.1 = link.calendarObjectID)) →
      ∃ out, makeAttachmentLinksOp links attMap objMap = .ok out ∧
        makeAttachmentLinks diruid freshTxn links attMap objMap =
          (.ok out, { created := some (label diruid "makeAttachmentLinks"),
                      committed := true, aborted := false,
                      loggedError := Option.none })) ∧
    ((∃ link ∈ links, (∀ p ∈ attMap, p.1 ≠ link.attachmentID) ∨
        (∀ q ∈ objMap, q.1 ≠ link.calendarObjectID)) →
      ∃ e, makeAttachmentLinksOp links attMap objMap = .error e ∧
        (makeAttachmentLinks diruid freshTxn links attMap objMap).2.aborted = true ∧
        (makeAttachmentLinks diruid freshTxn links attMap objMap).2.committed = false ∧
        committedLinks (makeAttachmentLinks diruid freshTxn links attMap objMap) = []) := by
  constructor
  · intro hmapped
    obtain ⟨out, hout⟩ := foldlM_links_ok attMap objMap links hmapped []
    refine ⟨out, hout, ?_⟩
    exact inTransactionWrapper_none_ok _ _ _ _ out hout
  · intro hbad
    obtain ⟨e, he⟩ := foldlM_links_error attMap objMap links hbad []
    have hw := inTransactionWrapper_none_error "makeAttachmentLinks" diruid freshTxn
      (fun _ => makeAttachmentLinksOp links attMap objMap) e he
    refine ⟨e, he, ?_, ?_, ?_⟩ <;>
      simp [makeAttachmentLinks, committedLinks, hw]

/-- Witness for C10: a link whose ids are both mapped is rewritten and
committed; a link with an unmapped attachment id aborts the batch and
commits nothing. -/
theorem C10_makeAttachmentLinks_witness :
    (∃ out, makeAttachmentLinksOp [⟨7, 3⟩] [(7, 200)] [(3, 101)] = .ok out) ∧
    committedLinks (makeAttachmentLinks "user01" 9 [⟨7, 3⟩] [] [(3, 101)]) = [] := by
  constructor
  · obtain ⟨out, hout, _⟩ :=
      (C10_makeAttachmentLinks "user01" 9 [⟨7, 3⟩] [(7, 200)] [(3, 101)]).1 (by decide)
    exact ⟨out, hout⟩
  · obtain ⟨e, _, _, _, hc⟩ :=
      (C10_makeAttachmentLinks "user01" 9 [⟨7, 3⟩] [] [(3, 101)]).2
        ⟨⟨7, 3⟩, by decide, Or.inl (by decide)⟩
    exact hc

/-- Witness for C8: the error paths and the success path at concrete records. -/
theorem C8_loadRecord_witness :
    loadRecord "user01" Option.none =
      .error (.directoryRecordNotFoundError
        "Cross-pod Migration Sync missing directory record for user01") ∧
    loadRecord "user01" (some ⟨"user01", true⟩) =
      .error (.valueError
        "Cross-pod Migration Sync cannot sync with user already on this server: user01") ∧
    syncStepTrace "user01" Option.none =
      .error (.directoryRecordNotFoundError
        "Cross-pod Migration Sync missing directory record for user01") := by
  refine ⟨(C8_loadRecord "user01").1, ?_, ?_⟩
  · have h := (C8_loadRecord "user01").2.1 ⟨"user01", true⟩
    simpa using h
  · exact (C8_loadRecord "user01").2.2 Option.none _ (C8_loadRecord "user01").1

end HomeSync
